import Mathlib

/-!
# OsdD3D11DrawContext: layout of adaptive patch tables

A shallow embedding of `opensubdiv/osd/d3d11DrawContext.cpp`:
`OsdD3D11DrawContext::allocate` and `OsdD3D11DrawContext::_AppendPatchArray`.

Conventions of the embedding.

* `int` and `unsigned int` quantities that the code only ever adds (table sizes,
  write cursors, vertex indices) are natural numbers; signed overflow is undefined
  behaviour in C++ and is not modelled. `UINT` byte widths are reduced mod `2^32`.
* The element count of a marker segment is a signed difference and its quotient by
  the patch size is the truncating C++ division (`Int.tdiv`).
* Mapped memory is a total map from element offsets to values: the code writes
  through raw pointers without any bounds check.
* The Direct3D device is an oracle answering each fallible call (`CreateBuffer`,
  `CreateShaderResourceView`, `Map`) with success or failure; every call is logged.
-/

set_option autoImplicit false
set_option linter.unusedVariables false

namespace OpenSubdiv

/-! ## Data model -/

/-- The patch types named by the source (`OpenSubdiv::kRegular`, ...). -/
inductive OsdPatchType where
  | kNonPatch
  | kRegular
  | kBoundary
  | kCorner
  | kGregory
  | kBoundaryGregory
  | kTransitionRegular
  | kTransitionBoundary
  | kTransitionCorner
  deriving DecidableEq, Repr

/-- The record `OsdPatchDescriptor`: the five constructor arguments used by `allocate`
and the `subpatch` field assigned by `_AppendPatchArray`. -/
structure OsdPatchDescriptor where
  type : OsdPatchType
  pattern : Nat
  rotation : Nat
  subpatch : Nat
  maxValence : Nat
  numElements : Nat
  deriving DecidableEq, Repr

/-- The constructor call `OsdPatchDescriptor(type, pattern, rotation, maxValence, numElements)`.
Modelled from the spec: the class is declared outside this file; the descriptor template
carries sub-patch id 0 (every emitted descriptor has the field assigned by the emit loop). -/
def OsdPatchDescriptor.ctor (type : OsdPatchType) (pattern rotation maxValence numElements : Nat) :
    OsdPatchDescriptor :=
  { type := type, pattern := pattern, rotation := rotation, subpatch := 0,
    maxValence := maxValence, numElements := numElements }

/-- The record `OsdPatchArray`, one entry of the descriptor sequence `patchArrays`. -/
structure OsdPatchArray where
  desc : OsdPatchDescriptor
  patchSize : Nat
  firstIndex : Nat
  numIndices : Nat
  levelBase : Nat
  gregoryQuadOffsetBase : Nat
  deriving DecidableEq, Repr

/-- Modelled from the spec: `FarPatchTables::PTable` (declared in `far/table.h`, outside this
file) is a raw index array segmented by level-boundary markers, the markers being offsets
into the array. -/
structure PTable where
  data : List Nat
  markers : List Nat
  deriving DecidableEq, Repr

namespace PTable

/-- Modelled from the spec: `GetSize()`, the index count of the category. -/
def GetSize (t : PTable) : Nat := t.data.length

/-- Modelled from the spec: `IsEmpty()`, true when the category has size 0. -/
def IsEmpty (t : PTable) : Bool := t.data.isEmpty

/-- Modelled from the spec: `GetMarkers()`, the level-boundary markers. -/
def GetMarkers (t : PTable) : List Nat := t.markers

/-- Modelled from the spec: `GetNumElements(level)`, the element count of marker segment
`level`, the signed difference of two successive markers. -/
def GetNumElements (t : PTable) (level : Nat) : Int :=
  (t.markers.getD (level + 1) 0 : Int) - (t.markers.getD level 0 : Int)

/-- Modelled from the spec: `ptable[0]`, the raw index array accessor. -/
def raw (t : PTable) : List Nat := t.data

end PTable

/-- Mapped memory: element offset to stored value. -/
abbrev Mem := Nat → Nat

/-- The library routine `memcpy(dst + off, src, n * sizeof(unsigned int))` where `src` has
exactly `n` elements: element `j` of the source lands at offset `off + j`. -/
def memcpy (dst : Mem) (off : Nat) : List Nat → Mem
  | [] => dst
  | x :: xs => memcpy (Function.update dst off x) (off + 1) xs

/-- The elements `off, off+1, ..., off+n-1` of a memory region. -/
def Mem.slice (m : Mem) (off n : Nat) : List Nat := (List.range n).map (fun j => m (off + j))

/-- The variables `_AppendPatchArray` reads and writes: the descriptor sequence of the
context, the two mapped regions and the two write cursors. -/
structure LayoutState where
  patchArrays : List OsdPatchArray
  indexBuffer : Mem
  indexBase : Nat
  levelBuffer : Mem
  levelBase : Nat

/-- The table `int subPatchCounts[] = { 3, 4, 4, 4, 2 }`. -/
def subPatchCounts : List Nat := [3, 4, 4, 4, 2]

/-- The emit loop `for (subpatch = 0; subpatch < numSubPatches; ++subpatch)`: each turn
assigns `array.desc.subpatch` and pushes a copy of `array`. The first argument is the
number of turns left. -/
def pushSubPatches : Nat → Nat → OsdPatchArray → List OsdPatchArray → List OsdPatchArray
  | 0, _, _, patchArrays => patchArrays
  | n + 1, subpatch, array, patchArrays =>
    let array := { array with desc := { array.desc with subpatch := subpatch } }
    pushSubPatches n (subpatch + 1) array (patchArrays ++ [array])

/-- The inner loop `for (j = 0; j < numPrims; ++j) levels.push_back(i)`; the first argument
is the number of turns left. -/
def pushLevel (i : Nat) : Nat → List Nat → List Nat
  | 0, levels => levels
  | n + 1, levels => pushLevel i n (levels ++ [i])

/-- The outer loop `for (i = 0; i < (int) markers.size()-1; ++i)`; the first argument is the
number of turns left, `i` the loop variable. -/
def levelLoop (ptable : PTable) (patchSize : Nat) : Nat → Nat → List Nat → List Nat
  | 0, _, levels => levels
  | n + 1, i, levels =>
    let numPrims : Int := Int.tdiv (ptable.GetNumElements i) (patchSize : Int)
    levelLoop ptable patchSize n (i + 1) (pushLevel i numPrims.toNat levels)

/-- The local vector `levels` as it stands after both loops. -/
def buildLevels (ptable : PTable) (patchSize : Nat) : List Nat :=
  levelLoop ptable patchSize (ptable.GetMarkers.length - 1) 0 []

/-- The member function `OsdD3D11DrawContext::_AppendPatchArray`. The ptex and face-varying
arguments are not read by the body and are left out. An out-of-range `desc.pattern`
(never passed by `allocate`) reads 0 from the count table. -/
def _AppendPatchArray (s : LayoutState) (ptable : PTable) (patchSize : Nat)
    (desc : OsdPatchDescriptor) (gregoryQuadOffsetBase : Nat) : LayoutState :=
  if ptable.IsEmpty then s
  else
    let array : OsdPatchArray :=
      { desc := desc, patchSize := patchSize, firstIndex := s.indexBase,
        numIndices := ptable.GetSize, levelBase := s.levelBase,
        gregoryQuadOffsetBase := gregoryQuadOffsetBase }
    let numSubPatches : Nat :=
      if desc.type = OsdPatchType.kTransitionRegular ∨
         desc.type = OsdPatchType.kTransitionBoundary ∨
         desc.type = OsdPatchType.kTransitionCorner
      then subPatchCounts.getD desc.pattern 0
      else 1
    let patchArrays := pushSubPatches numSubPatches 0 array s.patchArrays
    let indexBuffer := memcpy s.indexBuffer array.firstIndex ptable.raw
    let indexBase := s.indexBase + array.numIndices
    let levels := buildLevels ptable array.patchSize
    let levelBuffer := memcpy s.levelBuffer array.levelBase levels
    let levelBase := s.levelBase + levels.length
    { patchArrays := patchArrays, indexBuffer := indexBuffer, indexBase := indexBase,
      levelBuffer := levelBuffer, levelBase := levelBase }

/-! ## Inputs of `allocate` -/

/-- Modelled from the spec: the accessors of `FarPatchTables` that `allocate` calls (the class
is declared outside this file): one table per category, the four ring sizes, the maximum
valence and the two auxiliary tables. -/
structure FarPatchTables where
  GetFullRegularPatches : PTable
  GetFullBoundaryPatches : PTable
  GetFullCornerPatches : PTable
  GetFullGregoryPatches : PTable
  GetFullBoundaryGregoryPatches : PTable
  GetTransitionRegularPatches : Nat → PTable
  GetTransitionBoundaryPatches : Nat → Nat → PTable
  GetTransitionCornerPatches : Nat → Nat → PTable
  GetRegularPatchRingsize : Nat
  GetBoundaryPatchRingsize : Nat
  GetCornerPatchRingsize : Nat
  GetGregoryPatchRingsize : Nat
  GetMaxValence : Nat
  GetVertexValenceTable : List Nat
  GetQuadOffsetTable : List Nat

/-- Modelled from the spec: the accessors of `FarMesh` that `allocate` calls. `GetPatchTables`
is `none` for the NULL pointer; `GetMaxLevel` is read through `GetSubdivisionTables()`, and
`isLoop` is the outcome of the `dynamic_cast` to `FarLoopSubdivisionTables`. -/
structure FarMesh where
  GetPatchTables : Option FarPatchTables
  GetMaxLevel : Int
  isLoop : Bool
  GetFaceVertices : Int → List Nat
  GetTotalFVarWidth : Nat
  GetNumVertices : Nat

/-! ## The Direct3D device -/

/-- The resources `allocate` creates, named after the member that holds the handle. -/
inductive Resource where
  | patchIndexBuffer
  | patchLevelBuffer
  | patchLevelBufferSRV
  | vertexBufferSRV
  | vertexValenceBuffer
  | vertexValenceBufferSRV
  | quadOffsetBuffer
  | quadOffsetBufferSRV
  deriving DecidableEq, Repr

/-- The device operations: `CreateBuffer`, `CreateShaderResourceView`, `Map`, `Unmap`. -/
inductive Op where
  | createBuffer
  | createView
  | mapForWrite
  | unmap
  deriving DecidableEq, Repr

/-- One logged device call and whether it succeeded (`Unmap` cannot fail). -/
structure Event where
  op : Op
  target : Resource
  ok : Bool
  deriving DecidableEq, Repr

/-- The device: `answer n` is the outcome of the fallible call number `n` (counted from 0),
`calls` counts the fallible calls made so far, `trace` logs every call in order, `mapped`
lists the buffers currently mapped for write, and `pData r` is the (unspecified) content of
the region handed out when `r` is mapped with `D3D11_MAP_WRITE_DISCARD`. -/
structure Device where
  answer : Nat → Bool
  calls : Nat
  trace : List Event
  mapped : List Resource
  pData : Resource → Mem

namespace Device

/-- A device on which nothing has been called yet. -/
def fresh (answer : Nat → Bool) (pData : Resource → Mem) : Device :=
  { answer := answer, calls := 0, trace := [], mapped := [], pData := pData }

/-- The fallible call `ID3D11Device::CreateBuffer`; the boolean is `SUCCEEDED(hr)`. -/
def CreateBuffer (d : Device) (r : Resource) : Bool × Device :=
  let hr := d.answer d.calls
  (hr, { d with calls := d.calls + 1, trace := d.trace ++ [⟨Op.createBuffer, r, hr⟩] })

/-- The fallible call `ID3D11Device::CreateShaderResourceView`. -/
def CreateShaderResourceView (d : Device) (r : Resource) : Bool × Device :=
  let hr := d.answer d.calls
  (hr, { d with calls := d.calls + 1, trace := d.trace ++ [⟨Op.createView, r, hr⟩] })

/-- The fallible call `ID3D11DeviceContext::Map`: on success the buffer becomes mapped. -/
def Map (d : Device) (r : Resource) : Bool × Device :=
  let hr := d.answer d.calls
  (hr, { d with calls := d.calls + 1, trace := d.trace ++ [⟨Op.mapForWrite, r, hr⟩],
                mapped := if hr then d.mapped ++ [r] else d.mapped })

/-- The call `ID3D11DeviceContext::Unmap`: the buffer is no longer mapped. -/
def Unmap (d : Device) (r : Resource) : Device :=
  { d with trace := d.trace ++ [⟨Op.unmap, r, true⟩], mapped := d.mapped.filter (fun x => x ≠ r) }

end Device

/-- The calls of a trace that can fail: everything but `Unmap`. -/
def fallible (trace : List Event) : List Event := trace.filter (fun e => e.op ≠ Op.unmap)

/-- The macro `FAILED(hr)`. -/
def FAILED (hr : Bool) : Bool := !hr

/-! ## The draw context -/

/-- A device buffer: its `ByteWidth` and its content, element by element. -/
structure Buffer where
  ByteWidth : Nat
  data : Mem

/-- A shader resource view: its `Buffer.NumElements`. -/
structure View where
  NumElements : Nat
  deriving DecidableEq, Repr

/-- The members of `OsdD3D11DrawContext` that `allocate` assigns; `none` is the NULL handle.
`isAdaptive` and `patchArrays` are inherited members. -/
structure OsdD3D11DrawContext where
  isAdaptive : Bool
  patchArrays : List OsdPatchArray
  patchIndexBuffer : Option Buffer
  vertexBufferSRV : Option View
  vertexValenceBuffer : Option Buffer
  vertexValenceBufferSRV : Option View
  quadOffsetBuffer : Option Buffer
  quadOffsetBufferSRV : Option View
  patchLevelBuffer : Option Buffer
  patchLevelBufferSRV : Option View

/-- The constructor `OsdD3D11DrawContext::OsdD3D11DrawContext()`: every handle is NULL. The
inherited descriptor sequence starts empty; the inherited flag is not assigned here and its
initial value is a parameter. -/
def OsdD3D11DrawContext.ctor (isAdaptive : Bool) : OsdD3D11DrawContext :=
  { isAdaptive := isAdaptive, patchArrays := [],
    patchIndexBuffer := none, vertexBufferSRV := none,
    vertexValenceBuffer := none, vertexValenceBufferSRV := none,
    quadOffsetBuffer := none, quadOffsetBufferSRV := none,
    patchLevelBuffer := none, patchLevelBufferSRV := none }

/-- The content of a `std::vector` handed to `CreateBuffer` as initial data. -/
def Mem.ofList (l : List Nat) : Mem := fun j => l.getD j 0

/-- A byte width `n * sizeof(int)` stored in a `UINT`. -/
def byteWidth (n : Nat) : Nat := (n * 4) % 2 ^ 32

/-- The outcome of `allocate`: the returned boolean, the context and the device afterwards. -/
structure Outcome where
  result : Bool
  self : OsdD3D11DrawContext
  dev : Device

/-! ## `allocate` -/

/-- The size accumulation at the start of the adaptive path: the pair
`(totalPatchIndices, totalPatchLevels)` after the five full categories and the two nested
loops over `p < 5` and `r < 4`. -/
def sizeAccumulation (patchTables : FarPatchTables) : Nat × Nat :=
  let totalPatchIndices :=
    patchTables.GetFullRegularPatches.GetSize +
    patchTables.GetFullBoundaryPatches.GetSize +
    patchTables.GetFullCornerPatches.GetSize +
    patchTables.GetFullGregoryPatches.GetSize +
    patchTables.GetFullBoundaryGregoryPatches.GetSize
  let totalPatchLevels :=
    patchTables.GetFullRegularPatches.GetSize / patchTables.GetRegularPatchRingsize +
    patchTables.GetFullBoundaryPatches.GetSize / patchTables.GetBoundaryPatchRingsize +
    patchTables.GetFullCornerPatches.GetSize / patchTables.GetCornerPatchRingsize +
    patchTables.GetFullGregoryPatches.GetSize / patchTables.GetGregoryPatchRingsize +
    patchTables.GetFullBoundaryGregoryPatches.GetSize / patchTables.GetGregoryPatchRingsize
  (List.range 5).foldl
    (fun (acc : Nat × Nat) (p : Nat) =>
      let acc : Nat × Nat :=
        (acc.1 + (patchTables.GetTransitionRegularPatches p).GetSize,
         acc.2 + (patchTables.GetTransitionRegularPatches p).GetSize /
                   patchTables.GetRegularPatchRingsize)
      (List.range 4).foldl
        (fun (acc : Nat × Nat) (r : Nat) =>
          (acc.1 + ((patchTables.GetTransitionBoundaryPatches p r).GetSize +
                    (patchTables.GetTransitionCornerPatches p r).GetSize),
           acc.2 + ((patchTables.GetTransitionBoundaryPatches p r).GetSize /
                      patchTables.GetBoundaryPatchRingsize +
                    (patchTables.GetTransitionCornerPatches p r).GetSize /
                      patchTables.GetCornerPatchRingsize)))
        acc)
    (totalPatchIndices, totalPatchLevels)

/-- The sequence of `_AppendPatchArray` calls of `allocate`: the five full categories, then
the loops over the transition pattern `p < 5` and the rotation `r < 4`. -/
def appendPatchArrays (patchTables : FarPatchTables) (maxValence numElements : Nat)
    (s : LayoutState) : LayoutState :=
  let s := _AppendPatchArray s patchTables.GetFullRegularPatches
    patchTables.GetRegularPatchRingsize
    (OsdPatchDescriptor.ctor OsdPatchType.kRegular 0 0 0 0) 0
  let s := _AppendPatchArray s patchTables.GetFullBoundaryPatches
    patchTables.GetBoundaryPatchRingsize
    (OsdPatchDescriptor.ctor OsdPatchType.kBoundary 0 0 0 0) 0
  let s := _AppendPatchArray s patchTables.GetFullCornerPatches
    patchTables.GetCornerPatchRingsize
    (OsdPatchDescriptor.ctor OsdPatchType.kCorner 0 0 0 0) 0
  let s := _AppendPatchArray s patchTables.GetFullGregoryPatches
    patchTables.GetGregoryPatchRingsize
    (OsdPatchDescriptor.ctor OsdPatchType.kGregory 0 0 maxValence numElements) 0
  let s := _AppendPatchArray s patchTables.GetFullBoundaryGregoryPatches
    patchTables.GetGregoryPatchRingsize
    (OsdPatchDescriptor.ctor OsdPatchType.kBoundaryGregory 0 0 maxValence numElements)
    patchTables.GetFullGregoryPatches.GetSize
  (List.range 5).foldl
    (fun (s : LayoutState) (p : Nat) =>
      let s := _AppendPatchArray s (patchTables.GetTransitionRegularPatches p)
        patchTables.GetRegularPatchRingsize
        (OsdPatchDescriptor.ctor OsdPatchType.kTransitionRegular p 0 0 0) 0
      (List.range 4).foldl
        (fun (s : LayoutState) (r : Nat) =>
          let s := _AppendPatchArray s (patchTables.GetTransitionBoundaryPatches p r)
            patchTables.GetBoundaryPatchRingsize
            (OsdPatchDescriptor.ctor OsdPatchType.kTransitionBoundary p r 0 0) 0
          _AppendPatchArray s (patchTables.GetTransitionCornerPatches p r)
            patchTables.GetCornerPatchRingsize
            (OsdPatchDescriptor.ctor OsdPatchType.kTransitionCorner p r 0 0) 0)
        s)
    s

/-- The member function `OsdD3D11DrawContext::allocate`. `dev` stands for the device and its
immediate context, `array0` for a default-constructed `OsdPatchArray` (its constructor is
declared outside this file). The vertex buffer handle is opaque and left out. -/
def allocate (self : OsdD3D11DrawContext) (farMesh : FarMesh) (numElements : Nat)
    (dev : Device) (requirePtexCoordinates requireFVarData : Bool)
    (array0 : OsdPatchArray) : Outcome :=
  match farMesh.GetPatchTables with
  | none =>
    -- uniform patches
    let self := { self with isAdaptive := false }
    let level := farMesh.GetMaxLevel
    let indices := farMesh.GetFaceVertices (level - 1)
    let loop := farMesh.isLoop
    let numIndices := indices.length
    let (hr, dev) := dev.CreateBuffer Resource.patchIndexBuffer
    if FAILED hr then ⟨false, self, dev⟩
    else
      let self := { self with patchIndexBuffer := some ⟨byteWidth numIndices, Mem.ofList indices⟩ }
      let array := { array0 with desc := { array0.desc with type := OsdPatchType.kNonPatch } }
      let array := { array with patchSize := if loop then 3 else 4 }
      let array := { array with firstIndex := 0 }
      let array := { array with numIndices := numIndices }
      ⟨true, { self with patchArrays := self.patchArrays ++ [array] }, dev⟩
  | some patchTables =>
    -- adaptive patches
    let self := { self with isAdaptive := true }
    let totalPatchIndices := (sizeAccumulation patchTables).1
    let totalPatchLevels := (sizeAccumulation patchTables).2
    let (hr, dev) := dev.CreateBuffer Resource.patchIndexBuffer
    if FAILED hr then ⟨false, self, dev⟩
    else
    let self := { self with patchIndexBuffer := some ⟨byteWidth totalPatchIndices, dev.pData Resource.patchIndexBuffer⟩ }
    let (hr, dev) := dev.Map Resource.patchIndexBuffer
    if FAILED hr then ⟨false, self, dev⟩
    else
    let indexBuffer : Mem := dev.pData Resource.patchIndexBuffer
    let (hr, dev) := dev.CreateBuffer Resource.patchLevelBuffer
    if FAILED hr then ⟨false, self, dev⟩
    else
    let self := { self with patchLevelBuffer := some ⟨byteWidth totalPatchLevels, dev.pData Resource.patchLevelBuffer⟩ }
    let (hr, dev) := dev.CreateShaderResourceView Resource.patchLevelBufferSRV
    if FAILED hr then ⟨false, self, dev⟩
    else
    let self := { self with patchLevelBufferSRV := some ⟨totalPatchLevels⟩ }
    let (hr, dev) := dev.Map Resource.patchLevelBuffer
    if FAILED hr then ⟨false, self, dev⟩
    else
    let levelBuffer : Mem := dev.pData Resource.patchLevelBuffer
    let maxValence := patchTables.GetMaxValence
    let s := appendPatchArrays patchTables maxValence numElements
      { patchArrays := self.patchArrays, indexBuffer := indexBuffer, indexBase := 0,
        levelBuffer := levelBuffer, levelBase := 0 }
    -- the writes went through the mapped pointers: the buffers hold what was written
    let self := { self with
      patchArrays := s.patchArrays,
      patchIndexBuffer := some ⟨byteWidth totalPatchIndices, s.indexBuffer⟩,
      patchLevelBuffer := some ⟨byteWidth totalPatchLevels, s.levelBuffer⟩ }
    let dev := dev.Unmap Resource.patchIndexBuffer
    let dev := dev.Unmap Resource.patchLevelBuffer
    -- allocate and initialize additional buffer data
    let valenceTable := patchTables.GetVertexValenceTable
    let step (self : OsdD3D11DrawContext) (dev : Device) : Outcome :=
      let quadOffsetTable := patchTables.GetQuadOffsetTable
      if !quadOffsetTable.isEmpty then
        let (hr, dev) := dev.CreateBuffer Resource.quadOffsetBuffer
        if FAILED hr then ⟨false, self, dev⟩
        else
        let self := { self with quadOffsetBuffer := some ⟨byteWidth quadOffsetTable.length, Mem.ofList quadOffsetTable⟩ }
        let (hr, dev) := dev.CreateShaderResourceView Resource.quadOffsetBufferSRV
        if FAILED hr then ⟨false, self, dev⟩
        else
        let self := { self with quadOffsetBufferSRV := some ⟨quadOffsetTable.length % 2 ^ 32⟩ }
        ⟨true, self, dev⟩
      else ⟨true, self, dev⟩
    if !valenceTable.isEmpty then
      let (hr, dev) := dev.CreateBuffer Resource.vertexValenceBuffer
      if FAILED hr then ⟨false, self, dev⟩
      else
      let self := { self with vertexValenceBuffer := some ⟨byteWidth valenceTable.length, Mem.ofList valenceTable⟩ }
      let (hr, dev) := dev.CreateShaderResourceView Resource.vertexValenceBufferSRV
      if FAILED hr then ⟨false, self, dev⟩
      else
      let self := { self with vertexValenceBufferSRV := some ⟨valenceTable.length % 2 ^ 32⟩ }
      let (hr, dev) := dev.CreateShaderResourceView Resource.vertexBufferSRV
      if FAILED hr then ⟨false, self, dev⟩
      else
      let self := { self with vertexBufferSRV := some ⟨(6 * farMesh.GetNumVertices) % 2 ^ 32⟩ }
      step self dev
    else step self dev

/-! ## Specification-side definitions

These follow the words of the specification and are compared with the code above. -/

/-- One category as the specification lists it: its table, its ring size, its descriptor
template and the quad-offset base handed to its group. -/
structure Category where
  ptable : PTable
  patchSize : Nat
  desc : OsdPatchDescriptor
  gregoryQuadOffsetBase : Nat

/-- The call of `_AppendPatchArray` for one category. -/
def Category.append (s : LayoutState) (c : Category) : LayoutState :=
  _AppendPatchArray s c.ptable c.patchSize c.desc c.gregoryQuadOffsetBase

/-- The canonical category order of the specification: full-regular, full-boundary,
full-corner, full-Gregory, full-boundary-Gregory, then for `p = 0..4`: transition-regular(p),
then for `r = 0..3`: transition-boundary(p,r), transition-corner(p,r). -/
def canonicalOrder (patchTables : FarPatchTables) (maxValence numElements : Nat) :
    List Category :=
  [ ⟨patchTables.GetFullRegularPatches, patchTables.GetRegularPatchRingsize,
      OsdPatchDescriptor.ctor OsdPatchType.kRegular 0 0 0 0, 0⟩,
    ⟨patchTables.GetFullBoundaryPatches, patchTables.GetBoundaryPatchRingsize,
      OsdPatchDescriptor.ctor OsdPatchType.kBoundary 0 0 0 0, 0⟩,
    ⟨patchTables.GetFullCornerPatches, patchTables.GetCornerPatchRingsize,
      OsdPatchDescriptor.ctor OsdPatchType.kCorner 0 0 0 0, 0⟩,
    ⟨patchTables.GetFullGregoryPatches, patchTables.GetGregoryPatchRingsize,
      OsdPatchDescriptor.ctor OsdPatchType.kGregory 0 0 maxValence numElements, 0⟩,
    ⟨patchTables.GetFullBoundaryGregoryPatches, patchTables.GetGregoryPatchRingsize,
      OsdPatchDescriptor.ctor OsdPatchType.kBoundaryGregory 0 0 maxValence numElements,
      patchTables.GetFullGregoryPatches.GetSize⟩ ] ++
  (List.range 5).flatMap (fun p =>
    (⟨patchTables.GetTransitionRegularPatches p, patchTables.GetRegularPatchRingsize,
      OsdPatchDescriptor.ctor OsdPatchType.kTransitionRegular p 0 0 0, 0⟩ : Category) ::
    (List.range 4).flatMap (fun r =>
      [ (⟨patchTables.GetTransitionBoundaryPatches p r, patchTables.GetBoundaryPatchRingsize,
          OsdPatchDescriptor.ctor OsdPatchType.kTransitionBoundary p r 0 0, 0⟩ : Category),
        ⟨patchTables.GetTransitionCornerPatches p r, patchTables.GetCornerPatchRingsize,
          OsdPatchDescriptor.ctor OsdPatchType.kTransitionCorner p r 0 0, 0⟩ ]))

/-- The table of the category a descriptor belongs to, read off its type, pattern and
rotation. -/
def FarPatchTables.tableOf (patchTables : FarPatchTables) (desc : OsdPatchDescriptor) : PTable :=
  match desc.type with
  | OsdPatchType.kNonPatch => ⟨[], []⟩
  | OsdPatchType.kRegular => patchTables.GetFullRegularPatches
  | OsdPatchType.kBoundary => patchTables.GetFullBoundaryPatches
  | OsdPatchType.kCorner => patchTables.GetFullCornerPatches
  | OsdPatchType.kGregory => patchTables.GetFullGregoryPatches
  | OsdPatchType.kBoundaryGregory => patchTables.GetFullBoundaryGregoryPatches
  | OsdPatchType.kTransitionRegular => patchTables.GetTransitionRegularPatches desc.pattern
  | OsdPatchType.kTransitionBoundary =>
    patchTables.GetTransitionBoundaryPatches desc.pattern desc.rotation
  | OsdPatchType.kTransitionCorner =>
    patchTables.GetTransitionCornerPatches desc.pattern desc.rotation

/-- Whether a patch type is one of the three transition types. -/
def OsdPatchType.isTransition : OsdPatchType → Bool
  | OsdPatchType.kTransitionRegular => true
  | OsdPatchType.kTransitionBoundary => true
  | OsdPatchType.kTransitionCorner => true
  | _ => false

/-- The specification's `lookup = [3, 4, 4, 4, 2]`. -/
def lookup : List Nat := [3, 4, 4, 4, 2]

/-- The number of sub-patches of a group: `lookup[pattern]` for the transition categories, 1
for the ordinary ones. -/
def numSubPatches (desc : OsdPatchDescriptor) : Nat :=
  if desc.type.isTransition then lookup.getD desc.pattern 0 else 1

/-- A descriptor cloned from `array`, differing only by its sub-patch id. -/
def OsdPatchArray.withSubpatch (array : OsdPatchArray) (subpatch : Nat) : OsdPatchArray :=
  { array with desc := { array.desc with subpatch := subpatch } }

/-- The descriptors of one group placed at the cursors `firstIndex` and `levelBase`:
none for an empty category, else sub-patches `0 .. numSubPatches-1` of one template. -/
def groupDescriptors (c : Category) (firstIndex levelBase : Nat) : List OsdPatchArray :=
  if c.ptable.IsEmpty then []
  else (List.range (numSubPatches c.desc)).map
    (OsdPatchArray.withSubpatch
      ⟨c.desc, c.patchSize, firstIndex, c.ptable.GetSize, levelBase, c.gregoryQuadOffsetBase⟩)

/-- The level list of the specification: for each marker segment `i` (one fewer segment than
markers), `floor(segmentElementCount / patchSize)` copies of `i`. -/
def specLevels (ptable : PTable) (patchSize : Nat) : List Nat :=
  (List.range (ptable.markers.length - 1)).flatMap
    (fun i => List.replicate (Int.toNat (Int.fdiv (ptable.GetNumElements i) (patchSize : Int))) i)

/-- The level entries one category contributes: none when it is empty, else its level list. -/
def groupLevels (c : Category) : List Nat :=
  if c.ptable.IsEmpty then [] else specLevels c.ptable c.patchSize

/-- The descriptors of a sequence of categories laid out from the cursors `firstIndex` and
`levelBase`: each group starts where the previous one ended. -/
def layoutDescriptors : List Category → Nat → Nat → List OsdPatchArray
  | [], _, _ => []
  | c :: cs, firstIndex, levelBase =>
    groupDescriptors c firstIndex levelBase ++
      layoutDescriptors cs (firstIndex + c.ptable.GetSize) (levelBase + (groupLevels c).length)

/-- The level entries of a sequence of categories, one group after the other. -/
def levelConcat (cs : List Category) : List Nat := cs.flatMap groupLevels

/-- The raw index arrays of a sequence of categories, one after the other. -/
def rawConcat (cs : List Category) : List Nat := cs.flatMap (fun c => c.ptable.raw)

/-- The descriptors with sub-patch id 0: one per logical group. -/
def groupHeads (patchArrays : List OsdPatchArray) : List OsdPatchArray :=
  patchArrays.filter (fun a => a.desc.subpatch = 0)

/-- The markers of a table are non-decreasing offsets running from 0 to the table size. -/
def PTable.MarkersSpan (t : PTable) : Prop :=
  t.markers ≠ [] ∧ t.markers.getD 0 0 = 0 ∧
  t.markers.getD (t.markers.length - 1) 0 = t.GetSize ∧
  ∀ i < t.markers.length - 1, t.markers.getD i 0 ≤ t.markers.getD (i + 1) 0

/-- Every marker segment holds a whole number of primitives of `patchSize` indices. -/
def PTable.SegmentsDivisible (t : PTable) (patchSize : Nat) : Prop :=
  ∀ i < t.markers.length - 1, patchSize ∣ (t.markers.getD (i + 1) 0 - t.markers.getD i 0)

/-- Every one of the 50 categories is empty. -/
def FarPatchTables.AllEmpty (patchTables : FarPatchTables) : Prop :=
  patchTables.GetFullRegularPatches.IsEmpty = true ∧
  patchTables.GetFullBoundaryPatches.IsEmpty = true ∧
  patchTables.GetFullCornerPatches.IsEmpty = true ∧
  patchTables.GetFullGregoryPatches.IsEmpty = true ∧
  patchTables.GetFullBoundaryGregoryPatches.IsEmpty = true ∧
  (∀ p < 5, (patchTables.GetTransitionRegularPatches p).IsEmpty = true) ∧
  (∀ p < 5, ∀ r < 4, (patchTables.GetTransitionBoundaryPatches p r).IsEmpty = true) ∧
  (∀ p < 5, ∀ r < 4, (patchTables.GetTransitionCornerPatches p r).IsEmpty = true)

/-- A table is well formed for a ring size: the ring size is positive, the markers run from 0
to the table size without decreasing, and every segment holds whole primitives. -/
def PTable.WellFormed (t : PTable) (patchSize : Nat) : Prop :=
  0 < patchSize ∧ t.MarkersSpan ∧ t.SegmentsDivisible patchSize

/-- Every one of the 50 categories is well formed for its ring size. -/
def FarPatchTables.WellFormed (patchTables : FarPatchTables) : Prop :=
  patchTables.GetFullRegularPatches.WellFormed patchTables.GetRegularPatchRingsize ∧
  patchTables.GetFullBoundaryPatches.WellFormed patchTables.GetBoundaryPatchRingsize ∧
  patchTables.GetFullCornerPatches.WellFormed patchTables.GetCornerPatchRingsize ∧
  patchTables.GetFullGregoryPatches.WellFormed patchTables.GetGregoryPatchRingsize ∧
  patchTables.GetFullBoundaryGregoryPatches.WellFormed patchTables.GetGregoryPatchRingsize ∧
  (∀ p < 5, (patchTables.GetTransitionRegularPatches p).WellFormed
    patchTables.GetRegularPatchRingsize) ∧
  (∀ p < 5, ∀ r < 4, (patchTables.GetTransitionBoundaryPatches p r).WellFormed
    patchTables.GetBoundaryPatchRingsize) ∧
  (∀ p < 5, ∀ r < 4, (patchTables.GetTransitionCornerPatches p r).WellFormed
    patchTables.GetCornerPatchRingsize)

instance (t : PTable) : Decidable t.MarkersSpan := by
  unfold PTable.MarkersSpan
  infer_instance

instance (t : PTable) (patchSize : Nat) : Decidable (t.SegmentsDivisible patchSize) := by
  unfold PTable.SegmentsDivisible
  infer_instance

instance (t : PTable) (patchSize : Nat) : Decidable (t.WellFormed patchSize) := by
  unfold PTable.WellFormed
  infer_instance

instance (patchTables : FarPatchTables) : Decidable patchTables.WellFormed := by
  unfold FarPatchTables.WellFormed
  infer_instance

instance (patchTables : FarPatchTables) : Decidable patchTables.AllEmpty := by
  unfold FarPatchTables.AllEmpty
  infer_instance

/-- The markers of every one of the 50 tables are non-decreasing offsets running from 0 to
the table size. -/
def FarPatchTables.MarkersSpan (patchTables : FarPatchTables) : Prop :=
  patchTables.GetFullRegularPatches.MarkersSpan ∧
  patchTables.GetFullBoundaryPatches.MarkersSpan ∧
  patchTables.GetFullCornerPatches.MarkersSpan ∧
  patchTables.GetFullGregoryPatches.MarkersSpan ∧
  patchTables.GetFullBoundaryGregoryPatches.MarkersSpan ∧
  (∀ p < 5, (patchTables.GetTransitionRegularPatches p).MarkersSpan) ∧
  (∀ p < 5, ∀ r < 4, (patchTables.GetTransitionBoundaryPatches p r).MarkersSpan) ∧
  (∀ p < 5, ∀ r < 4, (patchTables.GetTransitionCornerPatches p r).MarkersSpan)

/-- Every ring size is positive. -/
def FarPatchTables.RingSizesPositive (patchTables : FarPatchTables) : Prop :=
  0 < patchTables.GetRegularPatchRingsize ∧ 0 < patchTables.GetBoundaryPatchRingsize ∧
  0 < patchTables.GetCornerPatchRingsize ∧ 0 < patchTables.GetGregoryPatchRingsize

/-- Every marker segment of every one of the 50 tables holds a whole number of primitives of
the ring size of its category. -/
def FarPatchTables.SegmentsDivisible (patchTables : FarPatchTables) : Prop :=
  patchTables.GetFullRegularPatches.SegmentsDivisible patchTables.GetRegularPatchRingsize ∧
  patchTables.GetFullBoundaryPatches.SegmentsDivisible patchTables.GetBoundaryPatchRingsize ∧
  patchTables.GetFullCornerPatches.SegmentsDivisible patchTables.GetCornerPatchRingsize ∧
  patchTables.GetFullGregoryPatches.SegmentsDivisible patchTables.GetGregoryPatchRingsize ∧
  patchTables.GetFullBoundaryGregoryPatches.SegmentsDivisible
    patchTables.GetGregoryPatchRingsize ∧
  (∀ p < 5, (patchTables.GetTransitionRegularPatches p).SegmentsDivisible
    patchTables.GetRegularPatchRingsize) ∧
  (∀ p < 5, ∀ r < 4, (patchTables.GetTransitionBoundaryPatches p r).SegmentsDivisible
    patchTables.GetBoundaryPatchRingsize) ∧
  (∀ p < 5, ∀ r < 4, (patchTables.GetTransitionCornerPatches p r).SegmentsDivisible
    patchTables.GetCornerPatchRingsize)

instance (patchTables : FarPatchTables) : Decidable patchTables.MarkersSpan := by
  unfold FarPatchTables.MarkersSpan
  infer_instance

instance (patchTables : FarPatchTables) : Decidable patchTables.RingSizesPositive := by
  unfold FarPatchTables.RingSizesPositive
  infer_instance

instance (patchTables : FarPatchTables) : Decidable patchTables.SegmentsDivisible := by
  unfold FarPatchTables.SegmentsDivisible
  infer_instance

/-! ## Concrete inputs -/

/-- The table with no indices and a single marker. -/
def emptyTable : PTable := ⟨[], [0]⟩

/-- A small adaptive mesh description: two regular patches on two levels, one Gregory patch,
two boundary-Gregory patches, one transition-regular patch of pattern 4 and one
transition-boundary patch of pattern 1, rotation 2. Ring sizes 4, 3, 2 and 4. -/
def sampleTables : FarPatchTables :=
  { GetFullRegularPatches := ⟨[10, 11, 12, 13, 14, 15, 16, 17], [0, 4, 8]⟩,
    GetFullBoundaryPatches := emptyTable,
    GetFullCornerPatches := emptyTable,
    GetFullGregoryPatches := ⟨[20, 21, 22, 23], [0, 4]⟩,
    GetFullBoundaryGregoryPatches := ⟨[30, 31, 32, 33, 34, 35, 36, 37], [0, 4, 8]⟩,
    GetTransitionRegularPatches := fun p => if p = 4 then ⟨[40, 41, 42, 43], [0, 0, 4]⟩
      else emptyTable,
    GetTransitionBoundaryPatches := fun p r => if p = 1 ∧ r = 2 then ⟨[50, 51, 52], [0, 3]⟩
      else emptyTable,
    GetTransitionCornerPatches := fun _ _ => emptyTable,
    GetRegularPatchRingsize := 4,
    GetBoundaryPatchRingsize := 3,
    GetCornerPatchRingsize := 2,
    GetGregoryPatchRingsize := 4,
    GetMaxValence := 5,
    GetVertexValenceTable := [4, 0, 1, 2, 3],
    GetQuadOffsetTable := [0, 1, 2, 3] }

/-- The adaptive mesh built on `sampleTables`. -/
def sampleMesh : FarMesh :=
  { GetPatchTables := some sampleTables, GetMaxLevel := 2, isLoop := false,
    GetFaceVertices := fun _ => [], GetTotalFVarWidth := 0, GetNumVertices := 18 }

/-- A uniform mesh (no patch tables) of the Loop scheme with two triangles at its finest
level. -/
def uniformMesh : FarMesh :=
  { GetPatchTables := none, GetMaxLevel := 2, isLoop := true,
    GetFaceVertices := fun level => if level = 1 then [0, 1, 2, 2, 1, 3] else [],
    GetTotalFVarWidth := 0, GetNumVertices := 4 }

/-- Patch tables whose 50 categories, valence table and quad-offset table are all empty. -/
def emptyTables : FarPatchTables :=
  { GetFullRegularPatches := emptyTable,
    GetFullBoundaryPatches := emptyTable,
    GetFullCornerPatches := emptyTable,
    GetFullGregoryPatches := emptyTable,
    GetFullBoundaryGregoryPatches := emptyTable,
    GetTransitionRegularPatches := fun _ => emptyTable,
    GetTransitionBoundaryPatches := fun _ _ => emptyTable,
    GetTransitionCornerPatches := fun _ _ => emptyTable,
    GetRegularPatchRingsize := 16,
    GetBoundaryPatchRingsize := 12,
    GetCornerPatchRingsize := 9,
    GetGregoryPatchRingsize := 4,
    GetMaxValence := 0,
    GetVertexValenceTable := [],
    GetQuadOffsetTable := [] }

/-- The adaptive mesh built on `emptyTables`. -/
def emptyMesh : FarMesh :=
  { GetPatchTables := some emptyTables, GetMaxLevel := 1, isLoop := false,
    GetFaceVertices := fun _ => [], GetTotalFVarWidth := 0, GetNumVertices := 0 }

/-- Patch tables whose only non-empty category, full-regular with ring size 4, holds six
indices in two segments of three. -/
def raggedTables : FarPatchTables :=
  { emptyTables with
    GetFullRegularPatches := ⟨[0, 1, 2, 3, 4, 5], [0, 3, 6]⟩,
    GetRegularPatchRingsize := 4 }

/-- The adaptive mesh built on `raggedTables`. -/
def raggedMesh : FarMesh :=
  { GetPatchTables := some raggedTables, GetMaxLevel := 2, isLoop := false,
    GetFaceVertices := fun _ => [], GetTotalFVarWidth := 0, GetNumVertices := 6 }

/-- A device every call of which succeeds; mapped regions start zeroed. -/
def okDevice : Device := Device.fresh (fun _ => true) (fun _ _ => 0)

/-- A device whose fallible call number `n` (counted from 0) fails, all others succeeding. -/
def failingDevice (n : Nat) : Device := Device.fresh (fun k => k != n) (fun _ _ => 0)

/-- A default-constructed descriptor with every field zero. -/
def zeroArray : OsdPatchArray := ⟨⟨OsdPatchType.kNonPatch, 0, 0, 0, 0, 0⟩, 0, 0, 0, 0, 0⟩

/-- A layout state with nothing emitted and both cursors at 0 over zeroed regions. -/
def zeroState : LayoutState := ⟨[], fun _ => 0, 0, fun _ => 0, 0⟩

/-! # Theorems -/

/-! ## Lemmas on the loops and on `memcpy` -/

theorem withSubpatch_withSubpatch (a : OsdPatchArray) (j k : Nat) :
    (a.withSubpatch j).withSubpatch k = a.withSubpatch k := rfl

theorem pushSubPatches_eq (n k : Nat) (a : OsdPatchArray) (l : List OsdPatchArray) :
    pushSubPatches n k a l = l ++ (List.range' k n).map a.withSubpatch := by
  induction n generalizing k a l with
  | zero => simp [pushSubPatches]
  | succ n ih =>
    have h := ih (k + 1) (a.withSubpatch k) (l ++ [a.withSubpatch k])
    simp only [pushSubPatches]
    change pushSubPatches n (k + 1) (a.withSubpatch k) (l ++ [a.withSubpatch k]) = _
    rw [h]
    simp [List.range'_succ, withSubpatch_withSubpatch]

theorem memcpy_apply (src : List Nat) (dst : Mem) (off a : Nat) :
    memcpy dst off src a =
      if off ≤ a ∧ a < off + src.length then src.getD (a - off) 0 else dst a := by
  induction src generalizing dst off with
  | nil =>
    have h : ¬ (off ≤ a ∧ a < off) := by omega
    simp [memcpy, h]
  | cons x xs ih =>
    simp only [memcpy, ih, List.length_cons]
    by_cases h1 : off + 1 ≤ a
    · have h2 : a - off = (a - (off + 1)) + 1 := by omega
      by_cases h3 : a < off + 1 + xs.length
      · have h4 : off ≤ a ∧ a < off + (xs.length + 1) := by omega
        simp [h1, h3, h4, h2]
      · have h4 : ¬ (off ≤ a ∧ a < off + (xs.length + 1)) := by omega
        have h5 : a ≠ off := by omega
        simp [h1, h3, h4, h5, Function.update]
    · by_cases h5 : a = off
      · subst h5
        simp [Function.update]
      · have h4 : ¬ (off ≤ a ∧ a < off + (xs.length + 1)) := by omega
        simp [h1, h4, h5, Function.update]

theorem memcpy_append (xs ys : List Nat) (dst : Mem) (off : Nat) :
    memcpy (memcpy dst off xs) (off + xs.length) ys = memcpy dst off (xs ++ ys) := by
  induction xs generalizing dst off with
  | nil => simp [memcpy]
  | cons x xs ih =>
    have h := ih (Function.update dst off x) (off + 1)
    have e : off + 1 + xs.length = off + (xs.length + 1) := by omega
    rw [e] at h
    simpa [memcpy] using h

theorem slice_memcpy (pre mid post : List Nat) (dst : Mem) (off : Nat) :
    (memcpy dst off (pre ++ mid ++ post)).slice (off + pre.length) mid.length = mid := by
  apply List.ext_getElem
  · simp [Mem.slice]
  · intro i h1 h2
    simp only [Mem.slice, List.getElem_map, List.getElem_range, memcpy_apply]
    have h3 : off ≤ off + pre.length + i ∧
        off + pre.length + i < off + (pre ++ mid ++ post).length := by
      simp; omega
    rw [if_pos h3]
    have h4 : off + pre.length + i - off = pre.length + i := by omega
    rw [h4, List.getD_eq_getElem?_getD, List.append_assoc, List.getElem?_append_right (by omega)]
    simp [List.getElem?_append_left, h2]

theorem slice_memcpy_self (xs : List Nat) (dst : Mem) (off : Nat) :
    (memcpy dst off xs).slice off xs.length = xs := by
  have h := slice_memcpy [] xs [] dst off
  simpa using h

theorem pushLevel_eq (i n : Nat) (l : List Nat) :
    pushLevel i n l = l ++ List.replicate n i := by
  induction n generalizing l with
  | zero => simp [pushLevel]
  | succ n ih =>
    simp only [pushLevel, ih, List.append_assoc]
    congr 1

theorem toNat_tdiv_eq_fdiv (a : Int) (b : Nat) :
    (Int.tdiv a (b : Int)).toNat = (Int.fdiv a (b : Int)).toNat := by
  rcases Int.lt_or_le a 0 with h | h
  · have h1 : Int.tdiv a (b : Int) ≤ 0 := by
      have h0 : 0 ≤ Int.tdiv (-a) (b : Int) :=
        Int.tdiv_nonneg (by omega) (Int.ofNat_nonneg b)
      rw [Int.neg_tdiv] at h0
      omega
    have h2 : Int.fdiv a (b : Int) ≤ 0 := by
      rw [Int.fdiv_eq_ediv a (Int.ofNat_nonneg b)]
      rcases Nat.eq_zero_or_pos b with hb | hb
      · subst hb
        simp
      · exact le_of_lt (Int.ediv_neg' h (by exact_mod_cast hb))
    rw [Int.toNat_of_nonpos h1, Int.toNat_of_nonpos h2]
  · rw [Int.tdiv_eq_ediv h (Int.ofNat_nonneg b), Int.fdiv_eq_ediv a (Int.ofNat_nonneg b)]

theorem levelLoop_eq (t : PTable) (ps n i : Nat) (l : List Nat) :
    levelLoop t ps n i l = l ++ (List.range' i n).flatMap
      (fun j => List.replicate (Int.toNat (Int.fdiv (t.GetNumElements j) (ps : Int))) j) := by
  induction n generalizing i l with
  | zero => simp [levelLoop]
  | succ n ih =>
    simp only [levelLoop, ih, pushLevel_eq, toNat_tdiv_eq_fdiv, List.range'_succ,
      List.flatMap_cons, List.append_assoc]

theorem buildLevels_eq_specLevels (t : PTable) (ps : Nat) :
    buildLevels t ps = specLevels t ps := by
  simp [buildLevels, specLevels, levelLoop_eq, PTable.GetMarkers, List.range_eq_range']

/-! ## The append sequence as a fold over the canonical order -/

theorem numSubPatches_code (desc : OsdPatchDescriptor) :
    (if desc.type = OsdPatchType.kTransitionRegular ∨
        desc.type = OsdPatchType.kTransitionBoundary ∨
        desc.type = OsdPatchType.kTransitionCorner
      then subPatchCounts.getD desc.pattern 0 else 1) = numSubPatches desc := by
  cases h : desc.type <;> simp [numSubPatches, OsdPatchType.isTransition, h, lookup, subPatchCounts]

theorem isEmpty_iff (t : PTable) : t.IsEmpty = true ↔ t.data = [] := by
  simp [PTable.IsEmpty, List.isEmpty_iff]

theorem append_eq (s : LayoutState) (c : Category) :
    Category.append s c =
      { patchArrays := s.patchArrays ++ groupDescriptors c s.indexBase s.levelBase,
        indexBuffer := memcpy s.indexBuffer s.indexBase c.ptable.raw,
        indexBase := s.indexBase + c.ptable.GetSize,
        levelBuffer := memcpy s.levelBuffer s.levelBase (groupLevels c),
        levelBase := s.levelBase + (groupLevels c).length } := by
  unfold Category.append _AppendPatchArray groupDescriptors groupLevels
  by_cases h : c.ptable.IsEmpty = true
  · have hd : c.ptable.data = [] := (isEmpty_iff _).1 h
    simp [h, PTable.raw, PTable.GetSize, hd, memcpy]
  · simp only [h, if_false, Bool.false_eq_true, numSubPatches_code, pushSubPatches_eq,
      buildLevels_eq_specLevels, List.range_eq_range']

theorem foldl_append_eq (cs : List Category) (s : LayoutState) :
    cs.foldl Category.append s =
      { patchArrays := s.patchArrays ++ layoutDescriptors cs s.indexBase s.levelBase,
        indexBuffer := memcpy s.indexBuffer s.indexBase (rawConcat cs),
        indexBase := s.indexBase + (rawConcat cs).length,
        levelBuffer := memcpy s.levelBuffer s.levelBase (levelConcat cs),
        levelBase := s.levelBase + (levelConcat cs).length } := by
  induction cs generalizing s with
  | nil => simp [layoutDescriptors, rawConcat, levelConcat, memcpy]
  | cons c cs ih =>
    rw [List.foldl_cons, ih, append_eq]
    simp only [rawConcat, levelConcat, List.flatMap_cons, layoutDescriptors, memcpy_append,
      List.length_append, List.append_assoc, PTable.GetSize, PTable.raw, Nat.add_assoc]

theorem appendPatchArrays_eq (pt : FarPatchTables) (mv ne : Nat) (s : LayoutState) :
    appendPatchArrays pt mv ne s = (canonicalOrder pt mv ne).foldl Category.append s := by
  rfl

/-! ## Descriptors of a layout -/

theorem mem_groupDescriptors (c : Category) (fi lb : Nat) (a : OsdPatchArray) :
    a ∈ groupDescriptors c fi lb ↔
      c.ptable.IsEmpty = false ∧ ∃ k, k < numSubPatches c.desc ∧
        a = OsdPatchArray.withSubpatch
          ⟨c.desc, c.patchSize, fi, c.ptable.GetSize, lb, c.gregoryQuadOffsetBase⟩ k := by
  unfold groupDescriptors
  cases h : c.ptable.IsEmpty
  · simp only [Bool.false_eq_true, if_false, List.mem_map, List.mem_range, true_and]
    constructor
    · rintro ⟨k, hk, rfl⟩
      exact ⟨k, hk, rfl⟩
    · rintro ⟨k, hk, rfl⟩
      exact ⟨k, hk, rfl⟩
  · simp

theorem mem_layoutDescriptors (cs : List Category) (fi lb : Nat) (a : OsdPatchArray)
    (h : a ∈ layoutDescriptors cs fi lb) :
    ∃ pre c post, cs = pre ++ c :: post ∧
      a ∈ groupDescriptors c (fi + (rawConcat pre).length) (lb + (levelConcat pre).length) := by
  induction cs generalizing fi lb with
  | nil => simp [layoutDescriptors] at h
  | cons c cs ih =>
    simp only [layoutDescriptors, List.mem_append] at h
    rcases h with h | h
    · exact ⟨[], c, cs, rfl, by simpa [rawConcat, levelConcat] using h⟩
    · obtain ⟨pre, d, post, rfl, hd⟩ := ih _ _ h
      refine ⟨c :: pre, d, post, rfl, ?_⟩
      simpa [rawConcat, levelConcat, PTable.raw, PTable.GetSize, Nat.add_assoc] using hd

theorem groupHeads_append (l1 l2 : List OsdPatchArray) :
    groupHeads (l1 ++ l2) = groupHeads l1 ++ groupHeads l2 := by
  simp [groupHeads]

theorem groupHeads_groupDescriptors (c : Category) (fi lb : Nat)
    (hn : 0 < numSubPatches c.desc) :
    groupHeads (groupDescriptors c fi lb) =
      if c.ptable.IsEmpty then []
      else [OsdPatchArray.withSubpatch
        ⟨c.desc, c.patchSize, fi, c.ptable.GetSize, lb, c.gregoryQuadOffsetBase⟩ 0] := by
  unfold groupDescriptors groupHeads
  cases h : c.ptable.IsEmpty
  · obtain ⟨m, hm⟩ : ∃ m, numSubPatches c.desc = m + 1 := ⟨numSubPatches c.desc - 1, by omega⟩
    simp only [Bool.false_eq_true, if_false, hm, List.range_succ_eq_map, List.map_cons,
      List.map_map]
    rw [List.filter_cons_of_pos (by simp [OsdPatchArray.withSubpatch])]
    congr 1
    rw [List.filter_eq_nil_iff]
    intro a ha
    simp only [List.mem_map, List.mem_range, Function.comp] at ha
    obtain ⟨k, _, rfl⟩ := ha
    simp [OsdPatchArray.withSubpatch]
  · simp

theorem groupHeads_layout_head (cs : List Category) (fi lb : Nat)
    (hn : ∀ c ∈ cs, 0 < numSubPatches c.desc) :
    ∀ a ∈ (groupHeads (layoutDescriptors cs fi lb)).head?, a.firstIndex = fi := by
  induction cs generalizing fi lb with
  | nil => simp [layoutDescriptors, groupHeads]
  | cons c cs ih =>
    intro a ha
    simp only [layoutDescriptors, groupHeads_append,
      groupHeads_groupDescriptors c fi lb (hn c (List.mem_cons_self _ _))] at ha
    cases h : c.ptable.IsEmpty
    · simp [h] at ha
      subst ha
      rfl
    · have hd : c.ptable.GetSize = 0 := by
        simp [PTable.IsEmpty, List.isEmpty_iff] at h
        simp [PTable.GetSize, h]
      simp only [h, if_true, List.nil_append, hd, Nat.add_zero] at ha
      exact ih _ _ (fun c hc => hn c (List.mem_cons_of_mem _ hc)) a ha

theorem groupHeads_layout_chain (cs : List Category) (fi lb : Nat)
    (hn : ∀ c ∈ cs, 0 < numSubPatches c.desc) :
    List.Chain' (fun a b : OsdPatchArray => b.firstIndex = a.firstIndex + a.numIndices)
      (groupHeads (layoutDescriptors cs fi lb)) := by
  induction cs generalizing fi lb with
  | nil => simp [layoutDescriptors, groupHeads]
  | cons c cs ih =>
    have hn2 : ∀ c ∈ cs, 0 < numSubPatches c.desc := fun c hc => hn c (List.mem_cons_of_mem _ hc)
    simp only [layoutDescriptors, groupHeads_append,
      groupHeads_groupDescriptors c fi lb (hn c (List.mem_cons_self _ _))]
    cases h : c.ptable.IsEmpty
    · simp only [Bool.false_eq_true, if_false, List.singleton_append]
      rw [List.chain'_cons']
      refine ⟨?_, ih _ _ hn2⟩
      intro b hb
      have := groupHeads_layout_head cs _ _ hn2 b hb
      simpa [OsdPatchArray.withSubpatch] using this
    · simpa using ih _ _ hn2

theorem groupHeads_layout_sum (cs : List Category) (fi lb : Nat)
    (hn : ∀ c ∈ cs, 0 < numSubPatches c.desc) :
    ((groupHeads (layoutDescriptors cs fi lb)).map OsdPatchArray.numIndices).sum =
      (cs.map (fun c => c.ptable.GetSize)).sum := by
  induction cs generalizing fi lb with
  | nil => simp [layoutDescriptors, groupHeads]
  | cons c cs ih =>
    have hn2 : ∀ c ∈ cs, 0 < numSubPatches c.desc := fun c hc => hn c (List.mem_cons_of_mem _ hc)
    simp only [layoutDescriptors, groupHeads_append,
      groupHeads_groupDescriptors c fi lb (hn c (List.mem_cons_self _ _)), List.map_append,
      List.sum_append, ih _ _ hn2, List.map_cons, List.sum_cons]
    cases h : c.ptable.IsEmpty
    · simp [OsdPatchArray.withSubpatch]
    · have hd : c.ptable.GetSize = 0 := by
        simp [PTable.IsEmpty, List.isEmpty_iff] at h
        simp [PTable.GetSize, h]
      simp [hd]

theorem canonical_sizes (pt : FarPatchTables) (mv ne : Nat) :
    ((canonicalOrder pt mv ne).map (fun c => c.ptable.GetSize)).sum = (sizeAccumulation pt).1 := by
  simp [canonicalOrder, sizeAccumulation, List.range_succ, List.flatMap]
  omega

theorem canonical_numSubPatches (pt : FarPatchTables) (mv ne : Nat) :
    ∀ c ∈ canonicalOrder pt mv ne, 0 < numSubPatches c.desc := by
  simp [canonicalOrder, List.range_succ, List.flatMap, numSubPatches, OsdPatchDescriptor.ctor,
    OsdPatchType.isTransition, lookup]

theorem canonical_tableOf (pt : FarPatchTables) (mv ne : Nat) :
    ∀ c ∈ canonicalOrder pt mv ne, pt.tableOf c.desc = c.ptable := by
  simp [canonicalOrder, List.range_succ, List.flatMap, FarPatchTables.tableOf,
    OsdPatchDescriptor.ctor]

theorem canonical_quadOffsetBase (pt : FarPatchTables) (mv ne : Nat) :
    ∀ c ∈ canonicalOrder pt mv ne, c.gregoryQuadOffsetBase =
      if c.desc.type = OsdPatchType.kBoundaryGregory then pt.GetFullGregoryPatches.GetSize
      else 0 := by
  simp [canonicalOrder, List.range_succ, List.flatMap, OsdPatchDescriptor.ctor]

/-! ## `allocate` on the adaptive path -/

theorem allocate_adaptive_success (self : OsdD3D11DrawContext) (farMesh : FarMesh)
    (pt : FarPatchTables) (ne : Nat) (dev : Device) (b1 b2 : Bool) (a0 : OsdPatchArray)
    (hpt : farMesh.GetPatchTables = some pt)
    (hres : (allocate self farMesh ne dev b1 b2 a0).result = true) :
    let s := appendPatchArrays pt pt.GetMaxValence ne
      { patchArrays := self.patchArrays,
        indexBuffer := dev.pData Resource.patchIndexBuffer, indexBase := 0,
        levelBuffer := dev.pData Resource.patchLevelBuffer, levelBase := 0 }
    (allocate self farMesh ne dev b1 b2 a0).self.isAdaptive = true ∧
    (allocate self farMesh ne dev b1 b2 a0).self.patchArrays = s.patchArrays ∧
    (allocate self farMesh ne dev b1 b2 a0).self.patchIndexBuffer =
      some ⟨byteWidth (sizeAccumulation pt).1, s.indexBuffer⟩ ∧
    (allocate self farMesh ne dev b1 b2 a0).self.patchLevelBuffer =
      some ⟨byteWidth (sizeAccumulation pt).2, s.levelBuffer⟩ := by
  intro s
  revert hres
  simp only [allocate, hpt, Device.CreateBuffer, Device.Map, Device.CreateShaderResourceView,
    Device.Unmap, FAILED]
  cases h0 : dev.answer dev.calls <;> simp
  cases h1 : dev.answer (dev.calls + 1) <;> simp
  cases h2 : dev.answer (dev.calls + 1 + 1) <;> simp
  cases h3 : dev.answer (dev.calls + 1 + 1 + 1) <;> simp
  cases h4 : dev.answer (dev.calls + 1 + 1 + 1 + 1) <;> simp
  intro _
  split_ifs <;> simp_all [s]

theorem rawConcat_length (cs : List Category) :
    (rawConcat cs).length = (cs.map (fun c => c.ptable.GetSize)).sum := by
  induction cs with
  | nil => simp [rawConcat]
  | cons c cs ih =>
    simp only [rawConcat, List.flatMap_cons, List.length_append, List.map_cons,
      List.sum_cons] at ih ⊢
    rw [ih]
    rfl

theorem rawConcat_filter (cs : List Category) :
    rawConcat (cs.filter (fun c => !c.ptable.IsEmpty)) = rawConcat cs := by
  induction cs with
  | nil => rfl
  | cons c cs ih =>
    cases h : c.ptable.IsEmpty
    · simp only [rawConcat, List.flatMap_cons] at ih ⊢
      rw [List.filter_cons_of_pos (by simp [h])]
      simp [ih]
    · have hd : c.ptable.raw = [] := by
        simpa [PTable.IsEmpty, List.isEmpty_iff] using h
      simp only [rawConcat, List.flatMap_cons] at ih ⊢
      rw [List.filter_cons_of_neg (by simp [h])]
      simp [ih, hd]

theorem allocate_all_answers (self : OsdD3D11DrawContext) (farMesh : FarMesh)
    (ne : Nat) (dev : Device) (b1 b2 : Bool) (a0 : OsdPatchArray)
    (hok : ∀ n, dev.answer n = true) :
    (allocate self farMesh ne dev b1 b2 a0).result = true := by
  simp only [allocate, Device.CreateBuffer, Device.Map, Device.CreateShaderResourceView,
    Device.Unmap, FAILED, hok]
  split
  · simp
  · simp
    split_ifs <;> rfl

theorem allocate_fresh_layout (flag : Bool) (farMesh : FarMesh) (pt : FarPatchTables)
    (ne : Nat) (dev : Device) (b1 b2 : Bool) (a0 : OsdPatchArray)
    (hpt : farMesh.GetPatchTables = some pt)
    (hres : (allocate (OsdD3D11DrawContext.ctor flag) farMesh ne dev b1 b2 a0).result = true) :
    (allocate (OsdD3D11DrawContext.ctor flag) farMesh ne dev b1 b2 a0).self.patchArrays =
      layoutDescriptors (canonicalOrder pt pt.GetMaxValence ne) 0 0 ∧
    (allocate (OsdD3D11DrawContext.ctor flag) farMesh ne dev b1 b2 a0).self.patchIndexBuffer =
      some ⟨byteWidth (sizeAccumulation pt).1,
        memcpy (dev.pData Resource.patchIndexBuffer) 0
          (rawConcat (canonicalOrder pt pt.GetMaxValence ne))⟩ ∧
    (allocate (OsdD3D11DrawContext.ctor flag) farMesh ne dev b1 b2 a0).self.patchLevelBuffer =
      some ⟨byteWidth (sizeAccumulation pt).2,
        memcpy (dev.pData Resource.patchLevelBuffer) 0
          (levelConcat (canonicalOrder pt pt.GetMaxValence ne))⟩ := by
  obtain ⟨_, hpa, hib, hlb⟩ := allocate_adaptive_success (OsdD3D11DrawContext.ctor flag) farMesh
    pt ne dev b1 b2 a0 hpt hres
  have e : (OsdD3D11DrawContext.ctor flag).patchArrays = [] := rfl
  rw [appendPatchArrays_eq, foldl_append_eq, e] at hpa hib hlb
  exact ⟨by simpa using hpa, hib, hlb⟩

/-- C1: in an adaptive build on a fresh context in which every provider call succeeds,
`allocate` returns success and the flat index buffer (its first `totalPatchIndices` elements)
is the concatenation of the raw index arrays of the non-empty categories in canonical order;
for every emitted descriptor the range `[firstIndex, firstIndex + numIndices)` of that buffer
holds exactly the raw indices of the descriptor's own category; the ranges of successive
groups are adjacent and the first group starts at 0. -/
theorem allocate_index_buffer_layout (flag : Bool) (farMesh : FarMesh) (pt : FarPatchTables)
    (numElements : Nat) (dev : Device) (b1 b2 : Bool) (a0 : OsdPatchArray)
    (hpt : farMesh.GetPatchTables = some pt) (hok : ∀ n, dev.answer n = true) :
    (allocate (OsdD3D11DrawContext.ctor flag) farMesh numElements dev b1 b2 a0).result = true ∧
    ∃ buf : Buffer,
      (allocate (OsdD3D11DrawContext.ctor flag) farMesh numElements dev b1 b2
        a0).self.patchIndexBuffer = some buf ∧
      buf.data.slice 0 (sizeAccumulation pt).1 =
        rawConcat ((canonicalOrder pt pt.GetMaxValence numElements).filter
          (fun c => !c.ptable.IsEmpty)) ∧
      (∀ a ∈ (allocate (OsdD3D11DrawContext.ctor flag) farMesh numElements dev b1 b2
          a0).self.patchArrays,
        buf.data.slice a.firstIndex a.numIndices = (pt.tableOf a.desc).raw) ∧
      List.Chain' (fun a b : OsdPatchArray => b.firstIndex = a.firstIndex + a.numIndices)
        (groupHeads (allocate (OsdD3D11DrawContext.ctor flag) farMesh numElements dev b1 b2
          a0).self.patchArrays) ∧
      (∀ a ∈ (groupHeads (allocate (OsdD3D11DrawContext.ctor flag) farMesh numElements dev
          b1 b2 a0).self.patchArrays).head?, a.firstIndex = 0) := by
  have hres := allocate_all_answers (OsdD3D11DrawContext.ctor flag) farMesh numElements dev
    b1 b2 a0 hok
  obtain ⟨hpa, hib, _⟩ := allocate_fresh_layout flag farMesh pt numElements dev b1 b2 a0
    hpt hres
  have hn := canonical_numSubPatches pt pt.GetMaxValence numElements
  refine ⟨hres, _, hib, ?_, ?_, ?_, ?_⟩
  · rw [rawConcat_filter, ← canonical_sizes pt pt.GetMaxValence numElements, ← rawConcat_length]
    exact slice_memcpy_self _ _ _
  · intro a ha
    rw [hpa] at ha
    obtain ⟨pre, c, post, hcs, hc⟩ := mem_layoutDescriptors _ _ _ _ ha
    obtain ⟨_, k, _, rfl⟩ := (mem_groupDescriptors _ _ _ _).1 hc
    have hT : pt.tableOf c.desc = c.ptable :=
      canonical_tableOf pt pt.GetMaxValence numElements c (by rw [hcs]; simp)
    have e : rawConcat (canonicalOrder pt pt.GetMaxValence numElements) =
        rawConcat pre ++ c.ptable.raw ++ rawConcat post := by
      rw [hcs]; simp [rawConcat]
    rw [e]
    have := slice_memcpy (rawConcat pre) c.ptable.raw (rawConcat post)
      (dev.pData Resource.patchIndexBuffer) 0
    change Mem.slice _ (0 + (rawConcat pre).length) c.ptable.GetSize = (pt.tableOf c.desc).raw
    rw [hT]
    exact this
  · rw [hpa]
    exact groupHeads_layout_chain _ _ _ hn
  · rw [hpa]
    exact groupHeads_layout_head _ _ _ hn

/-- C2: after a successful adaptive build on a fresh context, the sum of `numIndices` over the
descriptors with sub-patch id 0 (one per logical group) equals the `totalPatchIndices`
computed by the size accumulation at the start of `allocate`, which is the sum of the sizes
of all 50 categories. -/
theorem allocate_group_sizes_total (flag : Bool) (farMesh : FarMesh) (pt : FarPatchTables)
    (numElements : Nat) (dev : Device) (b1 b2 : Bool) (a0 : OsdPatchArray)
    (hpt : farMesh.GetPatchTables = some pt)
    (hres : (allocate (OsdD3D11DrawContext.ctor flag) farMesh numElements dev b1 b2
      a0).result = true) :
    ((groupHeads (allocate (OsdD3D11DrawContext.ctor flag) farMesh numElements dev b1 b2
      a0).self.patchArrays).map OsdPatchArray.numIndices).sum = (sizeAccumulation pt).1 ∧
    (sizeAccumulation pt).1 =
      ((canonicalOrder pt pt.GetMaxValence numElements).map
        (fun c => c.ptable.GetSize)).sum ∧
    (canonicalOrder pt pt.GetMaxValence numElements).length = 50 := by
  obtain ⟨hpa, _, _⟩ := allocate_fresh_layout flag farMesh pt numElements dev b1 b2 a0
    hpt hres
  refine ⟨?_, (canonical_sizes pt pt.GetMaxValence numElements).symm, rfl⟩
  rw [hpa, groupHeads_layout_sum _ _ _ (canonical_numSubPatches pt pt.GetMaxValence numElements),
    canonical_sizes]

theorem appendPatchArray_patchArrays (s : LayoutState) (ptable : PTable) (patchSize : Nat)
    (desc : OsdPatchDescriptor) (g : Nat) (hne : ptable.IsEmpty = false) :
    (_AppendPatchArray s ptable patchSize desc g).patchArrays =
      s.patchArrays ++ (List.range (numSubPatches desc)).map
        (OsdPatchArray.withSubpatch ⟨desc, patchSize, s.indexBase, ptable.GetSize,
          s.levelBase, g⟩) := by
  have h := append_eq s ⟨ptable, patchSize, desc, g⟩
  simp only [Category.append] at h
  rw [h]
  simp [groupDescriptors, hne]

/-- C3: for a non-empty transition category with pattern `p` in `0..4`, `_AppendPatchArray`
appends exactly `lookup[p]` descriptors with `lookup = [3, 4, 4, 4, 2]`: they are consecutive
at the end of the descriptor sequence, share every field of the group and carry the sub-patch
ids `0, 1, ..., lookup[p]-1` in that order. A non-empty non-transition category appends
exactly one descriptor, with sub-patch id 0. -/
theorem appendPatchArray_subpatch_expansion (s : LayoutState) (ptable : PTable)
    (patchSize : Nat) (desc : OsdPatchDescriptor) (gregoryQuadOffsetBase : Nat)
    (hne : ptable.IsEmpty = false) :
    (∀ n, (desc.type = OsdPatchType.kTransitionRegular ∨
          desc.type = OsdPatchType.kTransitionBoundary ∨
          desc.type = OsdPatchType.kTransitionCorner) →
        [3, 4, 4, 4, 2][desc.pattern]? = some n →
        (_AppendPatchArray s ptable patchSize desc gregoryQuadOffsetBase).patchArrays =
          s.patchArrays ++ (List.range n).map (fun k =>
            { desc := { desc with subpatch := k }, patchSize := patchSize,
              firstIndex := s.indexBase, numIndices := ptable.GetSize,
              levelBase := s.levelBase, gregoryQuadOffsetBase := gregoryQuadOffsetBase })) ∧
    (¬ (desc.type = OsdPatchType.kTransitionRegular ∨
          desc.type = OsdPatchType.kTransitionBoundary ∨
          desc.type = OsdPatchType.kTransitionCorner) →
        (_AppendPatchArray s ptable patchSize desc gregoryQuadOffsetBase).patchArrays =
          s.patchArrays ++
            [{ desc := { desc with subpatch := 0 }, patchSize := patchSize,
               firstIndex := s.indexBase, numIndices := ptable.GetSize,
               levelBase := s.levelBase, gregoryQuadOffsetBase := gregoryQuadOffsetBase }]) := by
  rw [appendPatchArray_patchArrays s ptable patchSize desc gregoryQuadOffsetBase hne]
  constructor
  · intro n ht hn
    have e : numSubPatches desc = n := by
      have h1 : desc.type.isTransition = true := by
        rcases ht with h | h | h <;> simp [h, OsdPatchType.isTransition]
      simp only [numSubPatches, h1, if_true, lookup, List.getD_eq_getElem?_getD, hn,
        Option.getD_some]
    rw [e]
    rfl
  · intro ht
    have e : numSubPatches desc = 1 := by
      have h1 : desc.type.isTransition = false := by
        cases h : desc.type <;> simp_all [OsdPatchType.isTransition]
      simp [numSubPatches, h1]
    rw [e]
    rfl

theorem levels_pairwise (c : Nat → Nat) (n i : Nat) :
    List.Pairwise (fun a b => a ≤ b)
      ((List.range' i n).flatMap (fun j => List.replicate (c j) j)) := by
  induction n generalizing i with
  | zero => simp
  | succ n ih =>
    rw [List.range'_succ, List.flatMap_cons, List.pairwise_append]
    refine ⟨?_, ih (i + 1), ?_⟩
    · simp [List.pairwise_replicate]
    · intro a ha b hb
      rw [List.mem_replicate] at ha
      simp only [List.mem_flatMap, List.mem_range'_1, List.mem_replicate] at hb
      obtain ⟨j, ⟨hj, _⟩, _, rfl⟩ := hb
      omega

/-- C10: for a non-empty table with `k+1` level markers and a positive patch size,
`_AppendPatchArray` writes into the level buffer, from the incoming `levelBase` on, the
sequence of `floor(segmentElementCount(i) / patchSize)` copies of `i` for `i = 0, ..., k-1` in
that order; the sequence is non-decreasing, `levelBase` advances by exactly its length, and
every entry outside the written range is unchanged. -/
theorem appendPatchArray_level_writes (s : LayoutState) (ptable : PTable)
    (patchSize : Nat) (desc : OsdPatchDescriptor) (gregoryQuadOffsetBase k : Nat)
    (hne : ptable.IsEmpty = false) (hk : ptable.GetMarkers.length = k + 1)
    (hps : 0 < patchSize) :
    ∃ levels : List Nat,
      levels = (List.range k).flatMap (fun i =>
        List.replicate (Int.toNat (Int.fdiv (ptable.GetNumElements i) (patchSize : Int))) i) ∧
      List.Pairwise (fun a b => a ≤ b) levels ∧
      (_AppendPatchArray s ptable patchSize desc gregoryQuadOffsetBase).levelBuffer.slice
        s.levelBase levels.length = levels ∧
      (_AppendPatchArray s ptable patchSize desc gregoryQuadOffsetBase).levelBase =
        s.levelBase + levels.length ∧
      ∀ a, a < s.levelBase ∨ s.levelBase + levels.length ≤ a →
        (_AppendPatchArray s ptable patchSize desc gregoryQuadOffsetBase).levelBuffer a =
          s.levelBuffer a := by
  have h := append_eq s ⟨ptable, patchSize, desc, gregoryQuadOffsetBase⟩
  simp only [Category.append, groupLevels, hne, Bool.false_eq_true, if_false] at h
  have e : specLevels ptable patchSize = (List.range k).flatMap (fun i =>
      List.replicate (Int.toNat (Int.fdiv (ptable.GetNumElements i) (patchSize : Int))) i) := by
    simp only [PTable.GetMarkers] at hk
    simp [specLevels, hk]
  rw [e] at h
  refine ⟨_, rfl, ?_, ?_, ?_, ?_⟩
  · rw [List.range_eq_range']
    exact levels_pairwise _ _ _
  · rw [h]
    exact slice_memcpy_self _ _ _
  · rw [h]
  · intro a ha
    rw [h]
    simp only [memcpy_apply]
    rw [if_neg (by omega)]

theorem specLevels_length (t : PTable) (ps : Nat) :
    (specLevels t ps).length = ((List.range (t.markers.length - 1)).map (fun i =>
      Int.toNat (Int.fdiv (t.GetNumElements i) (ps : Int)))).sum := by
  simp [specLevels, List.length_flatMap, Function.comp_def]

theorem segment_count (t : PTable) (ps i : Nat)
    (hle : t.markers.getD i 0 ≤ t.markers.getD (i + 1) 0) :
    Int.toNat (Int.fdiv (t.GetNumElements i) (ps : Int)) =
      (t.markers.getD (i + 1) 0 - t.markers.getD i 0) / ps := by
  have e : t.GetNumElements i = ((t.markers.getD (i + 1) 0 - t.markers.getD i 0 : Nat) : Int) := by
    simp only [PTable.GetNumElements]
    omega
  rw [e, Int.fdiv_eq_ediv _ (Int.ofNat_nonneg ps)]
  norm_cast

theorem wellFormed_prefix (t : PTable) (ps : Nat) (h0 : t.markers.getD 0 0 = 0)
    (hmono : ∀ i < t.markers.length - 1, t.markers.getD i 0 ≤ t.markers.getD (i + 1) 0)
    (hdiv : t.SegmentsDivisible ps) (j : Nat) (hj : j ≤ t.markers.length - 1) :
    ps ∣ t.markers.getD j 0 ∧
    ((List.range j).map (fun i =>
      Int.toNat (Int.fdiv (t.GetNumElements i) (ps : Int)))).sum = t.markers.getD j 0 / ps := by
  induction j with
  | zero =>
    rw [h0]
    simp
  | succ j ih =>
    obtain ⟨hd, hs⟩ := ih (by omega)
    have hle := hmono j (by omega)
    have hseg := hdiv j (by omega)
    have e : t.markers.getD (j + 1) 0 =
        t.markers.getD j 0 + (t.markers.getD (j + 1) 0 - t.markers.getD j 0) := by omega
    constructor
    · rw [e]
      exact Nat.dvd_add hd hseg
    · rw [List.range_succ, List.map_append, List.sum_append, hs, List.map_singleton,
        List.sum_singleton, segment_count t ps j hle]
      conv_rhs => rw [e]
      exact (Nat.add_div_of_dvd_right hd).symm

theorem wellFormed_levels (t : PTable) (ps : Nat) (h : t.WellFormed ps) :
    t.GetSize % ps = 0 ∧ t.GetSize / ps = (specLevels t ps).length := by
  obtain ⟨_, ⟨_, h0, hlast, hmono⟩, hdiv⟩ := h
  obtain ⟨hd, hs⟩ := wellFormed_prefix t ps h0 hmono hdiv (t.markers.length - 1) (le_refl _)
  rw [hlast] at hd hs
  exact ⟨Nat.mod_eq_zero_of_dvd hd, by rw [specLevels_length, hs]⟩

theorem canonical_wellFormed (pt : FarPatchTables) (mv ne : Nat) (h : pt.WellFormed) :
    ∀ c ∈ canonicalOrder pt mv ne, c.ptable.WellFormed c.patchSize := by
  obtain ⟨h1, h2, h3, h4, h5, h6, h7, h8⟩ := h
  simp [canonicalOrder, List.range_succ, List.flatMap, h1, h2, h3, h4, h5, h6, h7, h8]

theorem tableOf_withSubpatch (pt : FarPatchTables) (a : OsdPatchArray) (k : Nat) :
    pt.tableOf (a.withSubpatch k).desc = pt.tableOf a.desc := rfl

theorem mem_layoutDescriptors_of (pre : List Category) (c : Category) (post : List Category)
    (fi lb : Nat) (a : OsdPatchArray)
    (h : a ∈ groupDescriptors c (fi + (rawConcat pre).length)
      (lb + (levelConcat pre).length)) :
    a ∈ layoutDescriptors (pre ++ c :: post) fi lb := by
  induction pre generalizing fi lb with
  | nil =>
    simp only [List.nil_append, layoutDescriptors, List.mem_append]
    left
    simpa [rawConcat, levelConcat] using h
  | cons d pre ih =>
    simp only [List.cons_append, layoutDescriptors, List.mem_append]
    right
    apply ih
    simpa [rawConcat, levelConcat, PTable.raw, PTable.GetSize, Nat.add_assoc] using h

/-- C4, counterexample: the adaptive build on `raggedMesh` (one full-regular table of six
indices in two segments of three, ring size 4) succeeds and emits a descriptor with
`numIndices = 6` and `patchSize = 4`, so `numIndices mod patchSize` is 2, not 0. -/
theorem allocate_ragged_table_counterexample :
    (allocate (OsdD3D11DrawContext.ctor false) raggedMesh 0 okDevice false false
      zeroArray).result = true ∧
    ¬ (∀ a ∈ (allocate (OsdD3D11DrawContext.ctor false) raggedMesh 0 okDevice false false
        zeroArray).self.patchArrays,
      a.numIndices % a.patchSize = 0 ∧
      ∀ s : LayoutState,
        (_AppendPatchArray s (raggedTables.tableOf a.desc) a.patchSize a.desc
          a.gregoryQuadOffsetBase).levelBase = s.levelBase + a.numIndices / a.patchSize) := by
  have e : (allocate (OsdD3D11DrawContext.ctor false) raggedMesh 0 okDevice false false
      zeroArray).self.patchArrays =
      [⟨⟨OsdPatchType.kRegular, 0, 0, 0, 0, 0⟩, 4, 0, 6, 0, 0⟩] := by
    decide
  refine ⟨by decide, ?_⟩
  rw [e]
  intro h
  have h1 := (h _ (List.mem_singleton_self _)).1
  simp at h1

/-- C4, amended: in a successful adaptive build, every emitted descriptor whose category table
is well formed for its patch size (positive patch size, markers running from 0 to the table
size without decreasing, every segment a multiple of the patch size) has
`numIndices mod patchSize = 0`, and the call of `_AppendPatchArray` for its group advances
`levelBase` by exactly `numIndices / patchSize`. -/
theorem allocate_whole_primitives (flag : Bool) (farMesh : FarMesh) (pt : FarPatchTables)
    (numElements : Nat) (dev : Device) (b1 b2 : Bool) (a0 : OsdPatchArray)
    (hpt : farMesh.GetPatchTables = some pt)
    (hres : (allocate (OsdD3D11DrawContext.ctor flag) farMesh numElements dev b1 b2
      a0).result = true) :
    ∀ a ∈ (allocate (OsdD3D11DrawContext.ctor flag) farMesh numElements dev b1 b2
        a0).self.patchArrays,
      (pt.tableOf a.desc).WellFormed a.patchSize →
      a.numIndices % a.patchSize = 0 ∧
      ∀ s : LayoutState,
        (_AppendPatchArray s (pt.tableOf a.desc) a.patchSize a.desc
          a.gregoryQuadOffsetBase).levelBase = s.levelBase + a.numIndices / a.patchSize := by
  obtain ⟨hpa, _, _⟩ := allocate_fresh_layout flag farMesh pt numElements dev b1 b2 a0
    hpt hres
  intro a ha
  rw [hpa] at ha
  obtain ⟨pre, c, post, hcs, hc⟩ := mem_layoutDescriptors _ _ _ _ ha
  obtain ⟨hne, k, _, rfl⟩ := (mem_groupDescriptors _ _ _ _).1 hc
  have hmem : c ∈ canonicalOrder pt pt.GetMaxValence numElements := by rw [hcs]; simp
  have hT : pt.tableOf c.desc = c.ptable :=
    canonical_tableOf pt pt.GetMaxValence numElements c hmem
  rw [tableOf_withSubpatch, hT]
  intro hwf
  obtain ⟨hmod, hdiv⟩ := wellFormed_levels c.ptable c.patchSize hwf
  refine ⟨hmod, ?_⟩
  intro s
  have h := append_eq s ⟨c.ptable, c.patchSize,
    { c.desc with subpatch := k }, c.gregoryQuadOffsetBase⟩
  simp only [Category.append, groupLevels, hne, Bool.false_eq_true, if_false] at h
  change (_AppendPatchArray s c.ptable c.patchSize { c.desc with subpatch := k }
    c.gregoryQuadOffsetBase).levelBase = s.levelBase + c.ptable.GetSize / c.patchSize
  rw [h, hdiv]

/-- C5: in a successful adaptive build every boundary-Gregory descriptor has
`gregoryQuadOffsetBase` equal to the size of the full-Gregory table (whatever that size is,
0 included) and every descriptor of any other type has `gregoryQuadOffsetBase = 0`; when the
boundary-Gregory category is non-empty such a descriptor is emitted. -/
theorem allocate_quad_offset_base (flag : Bool) (farMesh : FarMesh) (pt : FarPatchTables)
    (numElements : Nat) (dev : Device) (b1 b2 : Bool) (a0 : OsdPatchArray)
    (hpt : farMesh.GetPatchTables = some pt)
    (hres : (allocate (OsdD3D11DrawContext.ctor flag) farMesh numElements dev b1 b2
      a0).result = true) :
    (∀ a ∈ (allocate (OsdD3D11DrawContext.ctor flag) farMesh numElements dev b1 b2
        a0).self.patchArrays,
      a.gregoryQuadOffsetBase =
        if a.desc.type = OsdPatchType.kBoundaryGregory
        then pt.GetFullGregoryPatches.GetSize else 0) ∧
    (pt.GetFullBoundaryGregoryPatches.IsEmpty = false →
      ∃ a ∈ (allocate (OsdD3D11DrawContext.ctor flag) farMesh numElements dev b1 b2
          a0).self.patchArrays,
        a.desc.type = OsdPatchType.kBoundaryGregory ∧
        a.gregoryQuadOffsetBase = pt.GetFullGregoryPatches.GetSize) := by
  obtain ⟨hpa, _, _⟩ := allocate_fresh_layout flag farMesh pt numElements dev b1 b2 a0
    hpt hres
  rw [hpa]
  constructor
  · intro a ha
    obtain ⟨pre, c, post, hcs, hc⟩ := mem_layoutDescriptors _ _ _ _ ha
    obtain ⟨_, k, _, rfl⟩ := (mem_groupDescriptors _ _ _ _).1 hc
    exact canonical_quadOffsetBase pt pt.GetMaxValence numElements c (by rw [hcs]; simp)
  · intro hne
    have hcs : canonicalOrder pt pt.GetMaxValence numElements =
        (canonicalOrder pt pt.GetMaxValence numElements).take 4 ++
          (⟨pt.GetFullBoundaryGregoryPatches, pt.GetGregoryPatchRingsize,
            OsdPatchDescriptor.ctor OsdPatchType.kBoundaryGregory 0 0 pt.GetMaxValence
              numElements, pt.GetFullGregoryPatches.GetSize⟩ : Category) ::
          (canonicalOrder pt pt.GetMaxValence numElements).drop 5 := rfl
    rw [hcs]
    refine ⟨_, mem_layoutDescriptors_of _ _ _ 0 0 _
      ((mem_groupDescriptors _ _ _ _).2 ⟨hne, 0, Nat.one_pos, rfl⟩), rfl, rfl⟩

/-- C6: when the mesh has no patch tables and the index buffer creation succeeds, `allocate`
returns success with the adaptive flag false and exactly one descriptor, with
`firstIndex = 0`, `numIndices` the length of the finest-level face-vertex list and
`patchSize` 3 for the Loop scheme and 4 otherwise; no level, valence or quad-offset buffer or
view is created: the only device call is the creation of the index buffer. -/
theorem allocate_uniform (flag : Bool) (farMesh : FarMesh) (numElements : Nat) (dev : Device)
    (b1 b2 : Bool) (a0 : OsdPatchArray)
    (hpt : farMesh.GetPatchTables = none) (hok : dev.answer dev.calls = true) :
    (allocate (OsdD3D11DrawContext.ctor flag) farMesh numElements dev b1 b2 a0).result = true ∧
    (allocate (OsdD3D11DrawContext.ctor flag) farMesh numElements dev b1 b2
      a0).self.isAdaptive = false ∧
    (∃ a : OsdPatchArray,
      (allocate (OsdD3D11DrawContext.ctor flag) farMesh numElements dev b1 b2
        a0).self.patchArrays = [a] ∧
      a.firstIndex = 0 ∧
      a.numIndices = (farMesh.GetFaceVertices (farMesh.GetMaxLevel - 1)).length ∧
      a.patchSize = (if farMesh.isLoop then 3 else 4)) ∧
    (allocate (OsdD3D11DrawContext.ctor flag) farMesh numElements dev b1 b2
      a0).self.patchLevelBuffer.isNone = true ∧
    (allocate (OsdD3D11DrawContext.ctor flag) farMesh numElements dev b1 b2
      a0).self.patchLevelBufferSRV = none ∧
    (allocate (OsdD3D11DrawContext.ctor flag) farMesh numElements dev b1 b2
      a0).self.vertexValenceBuffer.isNone = true ∧
    (allocate (OsdD3D11DrawContext.ctor flag) farMesh numElements dev b1 b2
      a0).self.vertexValenceBufferSRV = none ∧
    (allocate (OsdD3D11DrawContext.ctor flag) farMesh numElements dev b1 b2
      a0).self.quadOffsetBuffer.isNone = true ∧
    (allocate (OsdD3D11DrawContext.ctor flag) farMesh numElements dev b1 b2
      a0).self.quadOffsetBufferSRV = none ∧
    (allocate (OsdD3D11DrawContext.ctor flag) farMesh numElements dev b1 b2 a0).dev.trace =
      dev.trace ++ [⟨Op.createBuffer, Resource.patchIndexBuffer, true⟩] := by
  simp [allocate, hpt, Device.CreateBuffer, FAILED, hok, OsdD3D11DrawContext.ctor]

/-- C9: for an adaptive build whose 50 categories, valence table and quad-offset table are all
empty and whose provider calls all succeed, `allocate` returns success, the descriptor
sequence is empty, and no valence or quad-offset buffer or view is created: every device
call targets the index buffer, the level buffer or the level view. -/
theorem allocate_all_empty (flag : Bool) (farMesh : FarMesh) (pt : FarPatchTables)
    (numElements : Nat) (dev : Device) (b1 b2 : Bool) (a0 : OsdPatchArray)
    (hpt : farMesh.GetPatchTables = some pt) (hempty : pt.AllEmpty)
    (hval : pt.GetVertexValenceTable = []) (hquad : pt.GetQuadOffsetTable = [])
    (hok : ∀ n, dev.answer n = true) :
    (allocate (OsdD3D11DrawContext.ctor flag) farMesh numElements dev b1 b2 a0).result = true ∧
    (allocate (OsdD3D11DrawContext.ctor flag) farMesh numElements dev b1 b2
      a0).self.patchArrays = [] ∧
    (allocate (OsdD3D11DrawContext.ctor flag) farMesh numElements dev b1 b2
      a0).self.vertexValenceBuffer.isNone = true ∧
    (allocate (OsdD3D11DrawContext.ctor flag) farMesh numElements dev b1 b2
      a0).self.vertexValenceBufferSRV = none ∧
    (allocate (OsdD3D11DrawContext.ctor flag) farMesh numElements dev b1 b2
      a0).self.quadOffsetBuffer.isNone = true ∧
    (allocate (OsdD3D11DrawContext.ctor flag) farMesh numElements dev b1 b2
      a0).self.quadOffsetBufferSRV = none ∧
    (∀ e ∈ (allocate (OsdD3D11DrawContext.ctor flag) farMesh numElements dev b1 b2
        a0).dev.trace, e ∈ dev.trace ∨
      (e.target = Resource.patchIndexBuffer ∨ e.target = Resource.patchLevelBuffer ∨
        e.target = Resource.patchLevelBufferSRV)) := by
  have hres := allocate_all_answers (OsdD3D11DrawContext.ctor flag) farMesh numElements dev
    b1 b2 a0 hok
  obtain ⟨hpa, _, _⟩ := allocate_fresh_layout flag farMesh pt numElements dev b1 b2 a0
    hpt hres
  have hall : ∀ c ∈ canonicalOrder pt pt.GetMaxValence numElements,
      c.ptable.IsEmpty = true := by
    obtain ⟨h1, h2, h3, h4, h5, h6, h7, h8⟩ := hempty
    simp [canonicalOrder, List.range_succ, List.flatMap, h1, h2, h3, h4, h5, h6, h7, h8]
  have hnil : ∀ (cs : List Category) (fi lb : Nat), (∀ c ∈ cs, c.ptable.IsEmpty = true) →
      layoutDescriptors cs fi lb = [] := by
    intro cs
    induction cs with
    | nil => intros; rfl
    | cons c cs ih =>
      intro fi lb h
      simp [layoutDescriptors, groupDescriptors, h c (List.mem_cons_self _ _),
        ih _ _ (fun d hd => h d (List.mem_cons_of_mem _ hd))]
  refine ⟨hres, by rw [hpa]; exact hnil _ _ _ hall, ?_⟩
  simp only [allocate, hpt, Device.CreateBuffer, Device.Map, Device.CreateShaderResourceView,
    Device.Unmap, FAILED, hok, hval, hquad, OsdD3D11DrawContext.ctor]
  simp
  rintro e (h | h | h | h | h | h | h | h)
  · exact Or.inl h
  all_goals subst h; simp

set_option maxHeartbeats 1600000 in
theorem allocate_trace_shape (self : OsdD3D11DrawContext) (farMesh : FarMesh)
    (ne : Nat) (answer : Nat → Bool) (pData : Resource → Mem) (b1 b2 : Bool)
    (a0 : OsdPatchArray) :
    (fallible (allocate self farMesh ne (Device.fresh answer pData) b1 b2 a0).dev.trace).map
        Event.ok =
      (List.range (fallible (allocate self farMesh ne (Device.fresh answer pData) b1 b2
        a0).dev.trace).length).map answer ∧
    (∀ i, i + 1 < (fallible (allocate self farMesh ne (Device.fresh answer pData) b1 b2
        a0).dev.trace).length → answer i = true) ∧
    ((allocate self farMesh ne (Device.fresh answer pData) b1 b2 a0).result = true ↔
      ∀ e ∈ (allocate self farMesh ne (Device.fresh answer pData) b1 b2 a0).dev.trace,
        e.ok = true) := by
  simp only [allocate, Device.fresh, Device.CreateBuffer, Device.Map,
    Device.CreateShaderResourceView, Device.Unmap, FAILED, Nat.zero_add, Nat.reduceAdd]
  cases farMesh.GetPatchTables with
  | none =>
    cases h0 : answer 0 <;> simp [fallible, List.range_succ, h0]
  | some pt =>
    cases hv : pt.GetVertexValenceTable.isEmpty <;> cases hq : pt.GetQuadOffsetTable.isEmpty
    all_goals
      cases h0 : answer 0
      swap
      cases h1 : answer 1
      swap
      cases h2 : answer 2
      swap
      cases h3 : answer 3
      swap
      cases h4 : answer 4
      swap
      cases h5 : answer 5
      swap
      cases h6 : answer 6
      swap
      cases h7 : answer 7
      swap
      cases h8 : answer 8
      swap
      cases h9 : answer 9
      all_goals
        refine ⟨?_, ?_, ?_⟩
        · simp [fallible, List.range_succ, *]
        · simp [fallible, *]
          try
            intro i hi
            have hb : i = 0 ∨ i = 1 ∨ i = 2 ∨ i = 3 ∨ i = 4 ∨ i = 5 ∨ i = 6 ∨ i = 7 ∨ i = 8 := by
              omega
            rcases hb with rfl | rfl | rfl | rfl | rfl | rfl | rfl | rfl | rfl <;>
              first | assumption | omega
        · simp [*]

/-- C7: if the `N`-th fallible provider call (`N ≥ 1`) made by `allocate` fails, then
`allocate` returns failure and that call is the last fallible call it makes; `allocate`
returns success only if every call it made succeeded; the outcome of the `i`-th fallible
call is the provider's `i`-th answer. -/
theorem allocate_fail_fast (self : OsdD3D11DrawContext) (farMesh : FarMesh)
    (numElements : Nat) (answer : Nat → Bool) (pData : Resource → Mem) (b1 b2 : Bool)
    (a0 : OsdPatchArray) (N : Nat) :
    (1 ≤ N →
      N ≤ (fallible (allocate self farMesh numElements (Device.fresh answer pData) b1 b2
        a0).dev.trace).length →
      ((fallible (allocate self farMesh numElements (Device.fresh answer pData) b1 b2
        a0).dev.trace).map Event.ok)[N - 1]? = some false →
      (allocate self farMesh numElements (Device.fresh answer pData) b1 b2 a0).result = false ∧
      (fallible (allocate self farMesh numElements (Device.fresh answer pData) b1 b2
        a0).dev.trace).length = N) ∧
    ((allocate self farMesh numElements (Device.fresh answer pData) b1 b2 a0).result = true →
      ∀ e ∈ (allocate self farMesh numElements (Device.fresh answer pData) b1 b2
        a0).dev.trace, e.ok = true) ∧
    (fallible (allocate self farMesh numElements (Device.fresh answer pData) b1 b2
        a0).dev.trace).map Event.ok =
      (List.range (fallible (allocate self farMesh numElements (Device.fresh answer pData)
        b1 b2 a0).dev.trace).length).map answer := by
  obtain ⟨hA, hB, hC⟩ := allocate_trace_shape self farMesh numElements answer pData b1 b2 a0
  refine ⟨?_, hC.1, hA⟩
  intro h1 hN hfail
  have hlt : N - 1 < (fallible (allocate self farMesh numElements (Device.fresh answer pData)
      b1 b2 a0).dev.trace).length := by omega
  have hans : answer (N - 1) = false := by
    rw [hA] at hfail
    rw [List.getElem?_map, List.getElem?_range hlt] at hfail
    simpa using hfail
  constructor
  · cases hr : (allocate self farMesh numElements (Device.fresh answer pData) b1 b2
        a0).result
    · rfl
    · exfalso
      have hall := hC.1 hr
      have hmem : ∀ b ∈ (fallible (allocate self farMesh numElements
          (Device.fresh answer pData) b1 b2 a0).dev.trace).map Event.ok, b = true := by
        intro b hb
        simp only [fallible, List.mem_map, List.mem_filter] at hb
        obtain ⟨e, ⟨he, _⟩, rfl⟩ := hb
        exact hall e he
      have := hmem false (List.getElem?_mem hfail)
      simp at this
  · by_contra hne
    have := hB (N - 1) (by omega)
    rw [hans] at this
    simp at this

/-- C8, evaluation at the failing input: on `sampleMesh`, when the third fallible call (the
creation of the level buffer) fails, `allocate` returns failure after mapping the index
buffer and without unmapping it; on the all-success path nothing is left mapped. -/
theorem allocate_leaves_index_buffer_mapped :
    (allocate (OsdD3D11DrawContext.ctor false) sampleMesh 3 (failingDevice 2) false false
      zeroArray).result = false ∧
    (allocate (OsdD3D11DrawContext.ctor false) sampleMesh 3 (failingDevice 2) false false
      zeroArray).dev.trace =
      [⟨Op.createBuffer, Resource.patchIndexBuffer, true⟩,
       ⟨Op.mapForWrite, Resource.patchIndexBuffer, true⟩,
       ⟨Op.createBuffer, Resource.patchLevelBuffer, false⟩] ∧
    (allocate (OsdD3D11DrawContext.ctor false) sampleMesh 3 (failingDevice 2) false false
      zeroArray).dev.mapped = [Resource.patchIndexBuffer] ∧
    (allocate (OsdD3D11DrawContext.ctor false) sampleMesh 3 okDevice false false
      zeroArray).dev.mapped = [] := by
  decide

/-- Witness for C1 on `sampleMesh`: the build succeeds and the index buffer holds the 27 raw
indices in canonical order. -/
theorem allocate_index_buffer_layout_witness :
    sampleMesh.GetPatchTables = some sampleTables ∧ (∀ n, okDevice.answer n = true) ∧
    (allocate (OsdD3D11DrawContext.ctor false) sampleMesh 3 okDevice false false
      zeroArray).result = true ∧
    ∃ buf : Buffer,
      (allocate (OsdD3D11DrawContext.ctor false) sampleMesh 3 okDevice false false
        zeroArray).self.patchIndexBuffer = some buf ∧
      buf.data.slice 0 27 =
        [10, 11, 12, 13, 14, 15, 16, 17, 20, 21, 22, 23, 30, 31, 32, 33, 34, 35, 36, 37,
         50, 51, 52, 40, 41, 42, 43] := by
  obtain ⟨hres, buf, hb, hs, _⟩ := allocate_index_buffer_layout false sampleMesh sampleTables 3
    okDevice false false zeroArray rfl (fun _ => rfl)
  exact ⟨rfl, fun _ => rfl, hres, buf, hb, hs⟩

/-- Witness for C2 on `sampleMesh`: the group sizes 8, 4, 8, 3 and 4 add up to 27. -/
theorem allocate_group_sizes_total_witness :
    (allocate (OsdD3D11DrawContext.ctor false) sampleMesh 3 okDevice false false
      zeroArray).result = true ∧
    ((groupHeads (allocate (OsdD3D11DrawContext.ctor false) sampleMesh 3 okDevice false false
      zeroArray).self.patchArrays).map OsdPatchArray.numIndices).sum = 27 :=
  ⟨by decide, (allocate_group_sizes_total false sampleMesh sampleTables 3 okDevice false false
    zeroArray rfl (by decide)).1⟩

/-- Witness for C3: the transition-regular table of pattern 4 of `sampleTables` appends two
descriptors with sub-patch ids 0 and 1. -/
theorem appendPatchArray_subpatch_expansion_witness :
    (sampleTables.GetTransitionRegularPatches 4).IsEmpty = false ∧
    (_AppendPatchArray zeroState (sampleTables.GetTransitionRegularPatches 4) 4
      (OsdPatchDescriptor.ctor OsdPatchType.kTransitionRegular 4 0 0 0) 0).patchArrays =
      [ ⟨⟨OsdPatchType.kTransitionRegular, 4, 0, 0, 0, 0⟩, 4, 0, 4, 0, 0⟩,
        ⟨⟨OsdPatchType.kTransitionRegular, 4, 0, 1, 0, 0⟩, 4, 0, 4, 0, 0⟩ ] :=
  ⟨rfl, (appendPatchArray_subpatch_expansion zeroState
    (sampleTables.GetTransitionRegularPatches 4) 4
    (OsdPatchDescriptor.ctor OsdPatchType.kTransitionRegular 4 0 0 0) 0 rfl).1 2
    (Or.inl rfl) rfl⟩

/-- Witness for the amended C4 on `sampleMesh`: the boundary-Gregory table (eight indices,
markers 0, 4, 8, patch size 4) is well formed and its descriptor has `8 mod 4 = 0`. -/
theorem allocate_whole_primitives_witness :
    (⟨⟨OsdPatchType.kBoundaryGregory, 0, 0, 0, 5, 3⟩, 4, 12, 8, 3, 4⟩ : OsdPatchArray) ∈
      (allocate (OsdD3D11DrawContext.ctor false) sampleMesh 3 okDevice false false
        zeroArray).self.patchArrays ∧
    sampleTables.GetFullBoundaryGregoryPatches.WellFormed 4 ∧
    8 % 4 = 0 ∧
    ∀ s : LayoutState,
      (_AppendPatchArray s sampleTables.GetFullBoundaryGregoryPatches 4
        ⟨OsdPatchType.kBoundaryGregory, 0, 0, 0, 5, 3⟩ 4).levelBase = s.levelBase + 8 / 4 :=
  ⟨by decide, by decide,
    allocate_whole_primitives false sampleMesh sampleTables 3 okDevice false false zeroArray
      rfl (by decide) ⟨⟨OsdPatchType.kBoundaryGregory, 0, 0, 0, 5, 3⟩, 4, 12, 8, 3, 4⟩
      (by decide) (by decide)⟩

/-- Witness for C5 on `sampleMesh`: the boundary-Gregory descriptor carries the Gregory
size 4. -/
theorem allocate_quad_offset_base_witness :
    sampleTables.GetFullBoundaryGregoryPatches.IsEmpty = false ∧
    ∃ a ∈ (allocate (OsdD3D11DrawContext.ctor false) sampleMesh 3 okDevice false false
        zeroArray).self.patchArrays,
      a.desc.type = OsdPatchType.kBoundaryGregory ∧ a.gregoryQuadOffsetBase = 4 :=
  ⟨rfl, (allocate_quad_offset_base false sampleMesh sampleTables 3 okDevice false false
    zeroArray rfl (by decide)).2 rfl⟩

/-- Witness for C6 on `uniformMesh`: one descriptor of six indices and patch size 3. -/
theorem allocate_uniform_witness :
    uniformMesh.GetPatchTables = none ∧ okDevice.answer okDevice.calls = true ∧
    (allocate (OsdD3D11DrawContext.ctor true) uniformMesh 3 okDevice false false
      zeroArray).result = true ∧
    (allocate (OsdD3D11DrawContext.ctor true) uniformMesh 3 okDevice false false
      zeroArray).self.isAdaptive = false :=
  ⟨rfl, rfl, (allocate_uniform true uniformMesh 3 okDevice false false zeroArray rfl rfl).1,
    (allocate_uniform true uniformMesh 3 okDevice false false zeroArray rfl rfl).2.1⟩

/-- Witness for C7 on `sampleMesh`: the third fallible call fails, the build fails and makes
exactly three fallible calls. -/
theorem allocate_fail_fast_witness :
    ((fallible (allocate (OsdD3D11DrawContext.ctor false) sampleMesh 3
      (Device.fresh (fun k => k != 2) (fun _ _ => 0)) false false
        zeroArray).dev.trace).map Event.ok)[3 - 1]? = some false ∧
    (allocate (OsdD3D11DrawContext.ctor false) sampleMesh 3
      (Device.fresh (fun k => k != 2) (fun _ _ => 0)) false false zeroArray).result = false ∧
    (fallible (allocate (OsdD3D11DrawContext.ctor false) sampleMesh 3
      (Device.fresh (fun k => k != 2) (fun _ _ => 0)) false false
        zeroArray).dev.trace).length = 3 :=
  ⟨by decide, (allocate_fail_fast (OsdD3D11DrawContext.ctor false) sampleMesh 3
    (fun k => k != 2) (fun _ _ => 0) false false zeroArray 3).1 (by decide) (by decide)
    (by decide)⟩

/-- Witness for C9 on `emptyMesh`: success with no descriptor. -/
theorem allocate_all_empty_witness :
    emptyTables.AllEmpty ∧
    (allocate (OsdD3D11DrawContext.ctor false) emptyMesh 3 okDevice false false
      zeroArray).result = true ∧
    (allocate (OsdD3D11DrawContext.ctor false) emptyMesh 3 okDevice false false
      zeroArray).self.patchArrays = [] :=
  ⟨by decide, (allocate_all_empty false emptyMesh emptyTables 3 okDevice false false zeroArray
      rfl (by decide) rfl rfl (fun _ => rfl)).1,
    (allocate_all_empty false emptyMesh emptyTables 3 okDevice false false zeroArray
      rfl (by decide) rfl rfl (fun _ => rfl)).2.1⟩

/-- Witness for C10: the full-regular table of `sampleTables` (markers 0, 4, 8, patch size 4)
writes the levels 0, 1 at offset 0 and advances the cursor by 2. -/
theorem appendPatchArray_level_writes_witness :
    sampleTables.GetFullRegularPatches.IsEmpty = false ∧
    sampleTables.GetFullRegularPatches.GetMarkers.length = 2 + 1 ∧
    (_AppendPatchArray zeroState sampleTables.GetFullRegularPatches 4
      (OsdPatchDescriptor.ctor OsdPatchType.kRegular 0 0 0 0) 0).levelBuffer.slice 0 2 =
        [0, 1] ∧
    (_AppendPatchArray zeroState sampleTables.GetFullRegularPatches 4
      (OsdPatchDescriptor.ctor OsdPatchType.kRegular 0 0 0 0) 0).levelBase = 2 := by
  obtain ⟨levels, hl, _, hs, hb, _⟩ := appendPatchArray_level_writes zeroState
    sampleTables.GetFullRegularPatches 4 (OsdPatchDescriptor.ctor OsdPatchType.kRegular 0 0 0 0)
    0 2 rfl rfl (by decide)
  have e : levels = [0, 1] := by rw [hl]; decide
  subst e
  exact ⟨rfl, rfl, hs, hb⟩

theorem span_prefix_le (t : PTable) (ps : Nat)
    (hmono : ∀ i < t.markers.length - 1, t.markers.getD i 0 ≤ t.markers.getD (i + 1) 0)
    (j : Nat) (hj : j ≤ t.markers.length - 1) :
    ((List.range j).map (fun i =>
      Int.toNat (Int.fdiv (t.GetNumElements i) (ps : Int)))).sum ≤ t.markers.getD j 0 / ps := by
  induction j with
  | zero => simp
  | succ j ih =>
    have hs := ih (by omega)
    have hle := hmono j (by omega)
    have e : t.markers.getD (j + 1) 0 =
        t.markers.getD j 0 + (t.markers.getD (j + 1) 0 - t.markers.getD j 0) := by omega
    rw [List.range_succ, List.map_append, List.sum_append, List.map_singleton,
      List.sum_singleton, segment_count t ps j hle]
    conv_rhs => rw [e]
    exact le_trans (Nat.add_le_add_right hs _) (Nat.add_div_le_add_div _ _ _)

theorem span_levels_le (t : PTable) (ps : Nat) (h : t.MarkersSpan) :
    (specLevels t ps).length ≤ t.GetSize / ps := by
  obtain ⟨_, _, hlast, hmono⟩ := h
  have hs := span_prefix_le t ps hmono (t.markers.length - 1) (le_refl _)
  rw [hlast] at hs
  rw [specLevels_length]
  exact hs

theorem groupLevels_le (c : Category) (h : c.ptable.MarkersSpan) :
    (groupLevels c).length ≤ c.ptable.GetSize / c.patchSize := by
  unfold groupLevels
  split
  · simp
  · exact span_levels_le _ _ h

theorem groupLevels_eq (c : Category) (h : c.ptable.WellFormed c.patchSize) :
    (groupLevels c).length = c.ptable.GetSize / c.patchSize := by
  unfold groupLevels
  split
  · rename_i he
    have hd : c.ptable.GetSize = 0 := by
      simp [PTable.IsEmpty, List.isEmpty_iff] at he
      simp [PTable.GetSize, he]
    simp [hd]
  · exact (wellFormed_levels _ _ h).2.symm

theorem levelConcat_length (cs : List Category) :
    (levelConcat cs).length = (cs.map (fun c => (groupLevels c).length)).sum := by
  induction cs with
  | nil => simp [levelConcat]
  | cons c cs ih =>
    simp only [levelConcat, List.flatMap_cons, List.length_append, List.map_cons,
      List.sum_cons] at ih ⊢
    rw [ih]

theorem levelConcat_le (cs : List Category) (h : ∀ c ∈ cs, c.ptable.MarkersSpan) :
    (levelConcat cs).length ≤ (cs.map (fun c => c.ptable.GetSize / c.patchSize)).sum := by
  rw [levelConcat_length]
  induction cs with
  | nil => simp
  | cons c cs ih =>
    simp only [List.map_cons, List.sum_cons]
    exact Nat.add_le_add (groupLevels_le c (h c (List.mem_cons_self _ _)))
      (ih (fun d hd => h d (List.mem_cons_of_mem _ hd)))

theorem levelConcat_eq (cs : List Category)
    (h : ∀ c ∈ cs, c.ptable.WellFormed c.patchSize) :
    (levelConcat cs).length = (cs.map (fun c => c.ptable.GetSize / c.patchSize)).sum := by
  rw [levelConcat_length]
  induction cs with
  | nil => simp
  | cons c cs ih =>
    simp only [List.map_cons, List.sum_cons]
    rw [groupLevels_eq c (h c (List.mem_cons_self _ _)),
      ih (fun d hd => h d (List.mem_cons_of_mem _ hd))]

theorem canonical_levels (pt : FarPatchTables) (mv ne : Nat) :
    ((canonicalOrder pt mv ne).map (fun c => c.ptable.GetSize / c.patchSize)).sum =
      (sizeAccumulation pt).2 := by
  simp [canonicalOrder, sizeAccumulation, List.range_succ, List.flatMap]
  omega

theorem canonical_markersSpan (pt : FarPatchTables) (mv ne : Nat) (h : pt.MarkersSpan) :
    ∀ c ∈ canonicalOrder pt mv ne, c.ptable.MarkersSpan := by
  obtain ⟨h1, h2, h3, h4, h5, h6, h7, h8⟩ := h
  simp [canonicalOrder, List.range_succ, List.flatMap, h1, h2, h3, h4, h5, h6, h7, h8]

theorem canonical_wellFormed_of (pt : FarPatchTables) (mv ne : Nat) (hs : pt.MarkersSpan)
    (hr : pt.RingSizesPositive) (hd : pt.SegmentsDivisible) :
    ∀ c ∈ canonicalOrder pt mv ne, c.ptable.WellFormed c.patchSize := by
  apply canonical_wellFormed
  obtain ⟨s1, s2, s3, s4, s5, s6, s7, s8⟩ := hs
  obtain ⟨r1, r2, r3, r4⟩ := hr
  obtain ⟨d1, d2, d3, d4, d5, d6, d7, d8⟩ := hd
  exact ⟨⟨r1, s1, d1⟩, ⟨r2, s2, d2⟩, ⟨r3, s3, d3⟩, ⟨r4, s4, d4⟩, ⟨r4, s5, d5⟩,
    fun p hp => ⟨r1, s6 p hp, d6 p hp⟩,
    fun p hp r hr => ⟨r2, s7 p hp r hr, d7 p hp r hr⟩,
    fun p hp r hr => ⟨r3, s8 p hp r hr, d8 p hp r hr⟩⟩

theorem rawConcat_append (xs ys : List Category) :
    rawConcat (xs ++ ys) = rawConcat xs ++ rawConcat ys := by
  simp [rawConcat]

theorem levelConcat_append (xs ys : List Category) :
    levelConcat (xs ++ ys) = levelConcat xs ++ levelConcat ys := by
  simp [levelConcat]

/-- C11: when the markers of every table are non-decreasing offsets running from 0 to the
table size and every ring size is positive, the canonical sequence of `_AppendPatchArray`
calls started with both cursors at 0 ends with the index cursor equal to `totalPatchIndices`
and the level cursor at most `totalPatchLevels`, with equality when every marker segment is a
multiple of the ring size of its category. The sequence is the fold of the calls over the
canonical order, and the index write `[indexBase, indexBase + size)` and the level write
`[levelBase, levelBase + levels.size())` of every call end within the two totals; no element
at or beyond a total is modified. The byte width of a buffer is four times its total as long
as that product fits a `UINT`. -/
theorem appendPatchArrays_writes_in_bounds (pt : FarPatchTables)
    (maxValence numElements : Nat) (patchArrays : List OsdPatchArray)
    (indexBuffer levelBuffer : Mem)
    (hspan : pt.MarkersSpan) (hring : pt.RingSizesPositive) :
    (appendPatchArrays pt maxValence numElements
      ⟨patchArrays, indexBuffer, 0, levelBuffer, 0⟩).indexBase = (sizeAccumulation pt).1 ∧
    (appendPatchArrays pt maxValence numElements
      ⟨patchArrays, indexBuffer, 0, levelBuffer, 0⟩).levelBase ≤ (sizeAccumulation pt).2 ∧
    (pt.SegmentsDivisible →
      (appendPatchArrays pt maxValence numElements
        ⟨patchArrays, indexBuffer, 0, levelBuffer, 0⟩).levelBase = (sizeAccumulation pt).2) ∧
    appendPatchArrays pt maxValence numElements ⟨patchArrays, indexBuffer, 0, levelBuffer, 0⟩ =
      (canonicalOrder pt maxValence numElements).foldl Category.append
        ⟨patchArrays, indexBuffer, 0, levelBuffer, 0⟩ ∧
    (∀ pre c post, canonicalOrder pt maxValence numElements = pre ++ c :: post →
      (pre.foldl Category.append ⟨patchArrays, indexBuffer, 0, levelBuffer, 0⟩).indexBase +
          c.ptable.GetSize ≤ (sizeAccumulation pt).1 ∧
      (c.ptable.IsEmpty = false →
        (pre.foldl Category.append ⟨patchArrays, indexBuffer, 0, levelBuffer, 0⟩).levelBase +
          (buildLevels c.ptable c.patchSize).length ≤ (sizeAccumulation pt).2)) ∧
    (∀ a, (sizeAccumulation pt).1 ≤ a →
      (appendPatchArrays pt maxValence numElements
        ⟨patchArrays, indexBuffer, 0, levelBuffer, 0⟩).indexBuffer a = indexBuffer a) ∧
    (∀ a, (sizeAccumulation pt).2 ≤ a →
      (appendPatchArrays pt maxValence numElements
        ⟨patchArrays, indexBuffer, 0, levelBuffer, 0⟩).levelBuffer a = levelBuffer a) ∧
    (4 * (sizeAccumulation pt).1 < 2 ^ 32 →
      byteWidth (sizeAccumulation pt).1 = 4 * (sizeAccumulation pt).1) ∧
    (4 * (sizeAccumulation pt).2 < 2 ^ 32 →
      byteWidth (sizeAccumulation pt).2 = 4 * (sizeAccumulation pt).2) := by
  have hS := canonical_markersSpan pt maxValence numElements hspan
  have hI : (rawConcat (canonicalOrder pt maxValence numElements)).length =
      (sizeAccumulation pt).1 := by
    rw [rawConcat_length, canonical_sizes]
  have hL : (levelConcat (canonicalOrder pt maxValence numElements)).length ≤
      (sizeAccumulation pt).2 := by
    rw [← canonical_levels pt maxValence numElements]
    exact levelConcat_le _ hS
  rw [appendPatchArrays_eq, foldl_append_eq]
  refine ⟨by simpa using hI, by simpa using hL, ?_, rfl, ?_, ?_, ?_, ?_, ?_⟩
  · intro hdiv
    have := levelConcat_eq _ (canonical_wellFormed_of pt maxValence numElements hspan hring hdiv)
    rw [canonical_levels] at this
    simpa using this
  · intro pre c post hcs
    rw [foldl_append_eq]
    have e1 : rawConcat (canonicalOrder pt maxValence numElements) =
        rawConcat pre ++ (c.ptable.raw ++ rawConcat post) := by
      rw [hcs]; simp [rawConcat]
    have e2 : levelConcat (canonicalOrder pt maxValence numElements) =
        levelConcat pre ++ (groupLevels c ++ levelConcat post) := by
      rw [hcs]; simp [levelConcat]
    rw [e1] at hI
    rw [e2] at hL
    simp only [List.length_append] at hI hL
    constructor
    · simp only [PTable.GetSize, PTable.raw] at hI ⊢
      omega
    · intro hne
      have e3 : groupLevels c = buildLevels c.ptable c.patchSize := by
        simp [groupLevels, hne, buildLevels_eq_specLevels]
      rw [e3] at hL
      simp only [Nat.zero_add]
      omega
  · intro a ha
    simp only [memcpy_apply]
    rw [if_neg (by omega)]
  · intro a ha
    simp only [memcpy_apply]
    rw [if_neg (by omega)]
  · intro h
    unfold byteWidth
    rw [Nat.mod_eq_of_lt (by omega)]
    omega
  · intro h
    unfold byteWidth
    rw [Nat.mod_eq_of_lt (by omega)]
    omega

/-- Witness for C11 on `sampleTables`: the cursors end at 27 and 7, the two totals. -/
theorem appendPatchArrays_writes_in_bounds_witness :
    sampleTables.MarkersSpan ∧ sampleTables.RingSizesPositive ∧
    sampleTables.SegmentsDivisible ∧
    sizeAccumulation sampleTables = (27, 7) ∧
    (appendPatchArrays sampleTables 5 3 zeroState).indexBase = 27 ∧
    (appendPatchArrays sampleTables 5 3 zeroState).levelBase = 7 :=
  ⟨by decide, by decide, by decide, by decide,
    (appendPatchArrays_writes_in_bounds sampleTables 5 3 [] (fun _ => 0) (fun _ => 0)
      (by decide) (by decide)).1,
    (appendPatchArrays_writes_in_bounds sampleTables 5 3 [] (fun _ => 0) (fun _ => 0)
      (by decide) (by decide)).2.2.1 (by decide)⟩

end OpenSubdiv
